import Mathlib

/-!
Verification of the OAuth consent/state core of this repository
(`workers-oauth-utils.ts` and the `/authorize` POST handler of
`notion-handler.ts`).

The TypeScript source is shallowly embedded below.  Machine-level and
platform collaborators are modelled at their documented interfaces:

* `crypto.subtle.digest("SHA-256", _)` and `crypto.subtle.sign/verify("HMAC", _)`
  are modelled by a concrete executable SHA-256 / HMAC-SHA-256 over byte
  lists (`Nat` values below 256), following FIPS 180-4 / RFC 2104, which is
  the algorithm the source selects by name.
* `btoa` / `atob` are modelled by base64 encode / forgiving-base64 decode
  over Latin-1 strings; `btoa` fails (throws) on code points above 255.
* `JSON.parse` / `JSON.stringify` are modelled by an executable JSON
  parser/printer over an inductive `Json` type.  Number lexemes are kept
  as raw text (no claim inspects numeric values), and `\uXXXX` escapes
  denoting lone UTF-16 surrogates are rejected since Lean strings hold
  Unicode scalars; no claim depends on either corner.
* JavaScript exceptions that the source does not catch are modelled with
  `Except Unit`; caught exceptions are resolved locally.
* KV storage (`KVNamespace`) is modelled as an association list threaded
  through the functions; TTL expiry is enforced by the store itself and is
  not re-checked by the source, so it is not modelled.
-/

set_option maxRecDepth 100000
set_option maxHeartbeats 1000000

/-! ## JavaScript string primitives -/

/-- Whitespace as recognised by JavaScript's `String.prototype.trim` and
`parseInt` (ASCII part; exotic Unicode space code points do not occur in any
input these functions receive from the source). -/
def jsWs (c : Char) : Bool :=
  c = ' ' || c = '\t' || c = '\n' || c = '\r' || c = Char.ofNat 11 || c = Char.ofNat 12

/-- Model of `s.trim()`. -/
def trimChars (cs : List Char) : List Char :=
  ((cs.dropWhile jsWs).reverse.dropWhile jsWs).reverse

/-- Model of `s.split(sep)` for a one-character separator (the source only
splits on `";"` and `"."`).  Always returns a non-empty list. -/
def splitCh (sep : Char) : List Char → List (List Char)
  | [] => [[]]
  | c :: cs =>
    match splitCh sep cs with
    | [] => [[c]]
    | h :: t => if c = sep then [] :: h :: t else (c :: h) :: t

/-- Model of `s.startsWith(p)`. -/
def startsWithL : List Char → List Char → Bool
  | [], _ => true
  | _ :: _, [] => false
  | p :: ps, c :: cs => p = c && startsWithL ps cs

/-- Model of the cookie-extraction idiom used three times in the source:
`cookieHeader.split(";").map(c => c.trim()).find(c => c.startsWith(name + "="))`
followed by `cookie.substring(name.length + 1)`.  Returns the raw value of
the first cookie whose trimmed text starts with `name=`, or `none`. -/
def cookieValue (cookieHeader : String) (name : String) : Option String :=
  let want := name.data ++ ['=']
  match (splitCh ';' cookieHeader.data).map trimChars |>.find? (fun c => startsWithL want c) with
  | none => none
  | some c => some ⟨c.drop want.length⟩

/-! ## UTF-8 (model of `new TextEncoder().encode`) -/

/-- UTF-8 bytes of one Unicode scalar value. -/
def utf8EncodeChar (c : Char) : List Nat :=
  let n := c.toNat
  if n < 0x80 then [n]
  else if n < 0x800 then [0xC0 + n / 64, 0x80 + n % 64]
  else if n < 0x10000 then [0xE0 + n / 4096, 0x80 + (n / 64) % 64, 0x80 + n % 64]
  else [0xF0 + n / 262144, 0x80 + (n / 4096) % 64, 0x80 + (n / 64) % 64, 0x80 + n % 64]

/-- UTF-8 bytes of a string. -/
def utf8Encode (s : String) : List Nat :=
  s.data.flatMap utf8EncodeChar

/-! ## SHA-256 (model of `crypto.subtle.digest("SHA-256", _)`) -/

/-- 2 to the 32nd, the word modulus of SHA-256. -/
def M32 : Nat := 4294967296

/-- Right rotation of a 32-bit word. -/
def rotr32 (n x : Nat) : Nat :=
  ((x >>> n) ||| (x <<< (32 - n))) % M32

def sha256K : List Nat :=
  [1116352408, 1899447441, 3049323471, 3921009573, 961987163, 1508970993,
   2453635748, 2870763221, 3624381080, 310598401, 607225278, 1426881987,
   1925078388, 2162078206, 2614888103, 3248222580, 3835390401, 4022224774,
   264347078, 604807628, 770255983, 1249150122, 1555081692, 1996064986,
   2554220882, 2821834349, 2952996808, 3210313671, 3336571891, 3584528711,
   113926993, 338241895, 666307205, 773529912, 1294757372, 1396182291,
   1695183700, 1986661051, 2177026350, 2456956037, 2730485921, 2820302411,
   3259730800, 3345764771, 3516065817, 3600352804, 4094571909, 275423344,
   430227734, 506948616, 659060556, 883997877, 958139571, 1322822218,
   1537002063, 1747873779, 1955562222, 2024104815, 2227730452, 2361852424,
   2428436474, 2756734187, 3204031479, 3329325298]

def sha256H0 : List Nat :=
  [1779033703, 3144134277, 1013904242, 2773480762,
   1359893119, 2600822924, 528734635, 1541459225]

/-- SHA-256 message padding: append `0x80`, zero bytes, and the 64-bit
big-endian bit length, reaching a multiple of 64 bytes. -/
def sha256Pad (msg : List Nat) : List Nat :=
  let len := msg.length
  let zeros := (55 + 64 - len % 64) % 64
  let bitLen := len * 8
  msg ++ [0x80] ++ List.replicate zeros 0 ++
    [(bitLen / 2^56) % 256, (bitLen / 2^48) % 256, (bitLen / 2^40) % 256, (bitLen / 2^32) % 256,
     (bitLen / 2^24) % 256, (bitLen / 2^16) % 256, (bitLen / 2^8) % 256, bitLen % 256]

/-- Split a list into chunks of length `n` (structural recursion, so that it
reduces inside the kernel). -/
def chunksAux (n : Nat) : List α → List α → List (List α)
  | [], cur => if cur.isEmpty then [] else [cur.reverse]
  | x :: xs, cur =>
    let cur' := x :: cur
    if cur'.length = n then cur'.reverse :: chunksAux n xs [] else chunksAux n xs cur'

def chunks (n : Nat) (l : List α) : List (List α) :=
  if n = 0 then [] else chunksAux n l []

/-- Four bytes, big endian, as one 32-bit word. -/
def word4 : List Nat → Nat
  | [a, b, c, d] => a * 2^24 + b * 2^16 + c * 2^8 + d
  | _ => 0

/-- The 64-entry message schedule of one SHA-256 block. -/
def sha256Schedule (w16 : List Nat) : List Nat :=
  let step (w : List Nat) (i : Nat) : List Nat :=
    let g (j : Nat) : Nat := w.getD j 0
    let s0 := (rotr32 7 (g (i-15))) ^^^ (rotr32 18 (g (i-15))) ^^^ ((g (i-15)) >>> 3)
    let s1 := (rotr32 17 (g (i-2))) ^^^ (rotr32 19 (g (i-2))) ^^^ ((g (i-2)) >>> 10)
    w ++ [(g (i-16) + s0 + g (i-7) + s1) % M32]
  (List.range 48).foldl (fun w j => step w (j + 16)) w16

/-- One round of the SHA-256 compression function. -/
def sha256Round (st : List Nat) (kw : Nat × Nat) : List Nat :=
  match st with
  | [a, b, c, d, e, f, g, h] =>
    let s1 := (rotr32 6 e) ^^^ (rotr32 11 e) ^^^ (rotr32 25 e)
    let ch := (e &&& f) ^^^ ((e ^^^ 0xFFFFFFFF) &&& g)
    let t1 := (h + s1 + ch + kw.1 + kw.2) % M32
    let s0 := (rotr32 2 a) ^^^ (rotr32 13 a) ^^^ (rotr32 22 a)
    let maj := (a &&& b) ^^^ (a &&& c) ^^^ (b &&& c)
    let t2 := (s0 + maj) % M32
    [(t1 + t2) % M32, a, b, c, (d + t1) % M32, e, f, g]
  | _ => st

/-- Process one 64-byte block, updating the eight-word hash state. -/
def sha256Block (h : List Nat) (block : List Nat) : List Nat :=
  let w16 := (chunks 4 block).map word4
  let w := sha256Schedule w16
  let st := (sha256K.zip w).foldl sha256Round h
  (h.zip st).map (fun p => (p.1 + p.2) % M32)

/-- Big-endian bytes of a 32-bit word.  Every entry is below 256. -/
def wordBytes (w : Nat) : List Nat :=
  [(w / 2^24) % 256, (w / 2^16) % 256, (w / 2^8) % 256, w % 256]

/-- SHA-256 digest (32 bytes) of a byte list. -/
def sha256 (msg : List Nat) : List Nat :=
  let padded := sha256Pad msg
  let final := (chunks 64 padded).foldl sha256Block sha256H0
  final.flatMap wordBytes

/-! ## Hex encoding, as written in the source
(`Array.from(bytes).map(b => b.toString(16).padStart(2, "0")).join("")`). -/

/-- Lowercase hex digit of a value below 16. -/
def hexDigit (n : Nat) : Char :=
  if n < 10 then Char.ofNat (48 + n) else Char.ofNat (87 + n)

/-- Two lowercase hex digits of a byte value (for values below 256 this is
exactly `b.toString(16).padStart(2, "0")`). -/
def byteHex (b : Nat) : List Char :=
  [hexDigit (b / 16), hexDigit (b % 16)]

/-- Hex string of a byte list. -/
def bytesToHex (bs : List Nat) : String :=
  ⟨bs.flatMap byteHex⟩

/-- Model of the digest-to-hex idiom `bindStateToSession` and
`validateOAuthState` share: SHA-256 of the UTF-8 bytes of the string,
rendered as lowercase hex. -/
def sha256Hex (s : String) : String :=
  bytesToHex (sha256 (utf8Encode s))

/-! ## HMAC-SHA-256 (model of `crypto.subtle.importKey/sign/verify` with
algorithm `{ name: "HMAC", hash: "SHA-256" }`). -/

def hmacSha256 (secret data : String) : List Nat :=
  let key := utf8Encode secret
  let key := if key.length > 64 then sha256 key else key
  let key := key ++ List.replicate (64 - key.length) 0
  let ipad := key.map (fun b => b ^^^ 0x36)
  let opad := key.map (fun b => b ^^^ 0x5c)
  sha256 (opad ++ sha256 (ipad ++ utf8Encode data))

/-! ## JavaScript `Number.parseInt(s, 16)` and `Uint8Array` coercion -/

/-- Hex digit test of JavaScript `parseInt` with radix 16 (case insensitive). -/
def isJsHexDigit (c : Char) : Bool :=
  ('0' ≤ c && c ≤ '9') || ('a' ≤ c && c ≤ 'f') || ('A' ≤ c && c ≤ 'F')

/-- Numeric value of a hex digit. -/
def hexVal (c : Char) : Nat :=
  if '0' ≤ c && c ≤ '9' then c.toNat - 48
  else if 'a' ≤ c && c ≤ 'f' then c.toNat - 87
  else c.toNat - 55

/-- Model of `Number.parseInt(s, 16)`: skip whitespace, optional sign,
optional `0x`/`0X`, then the maximal run of hex digits; `none` is `NaN`
(no digits at all).  Trailing garbage is ignored, which is what makes the
source's signature decoding lenient. -/
def jsParseIntHex (cs : List Char) : Option Int :=
  let cs1 := cs.dropWhile jsWs
  let p : Int × List Char :=
    match cs1 with
    | c :: r => if c = '-' then (-1, r) else if c = '+' then (1, r) else (1, c :: r)
    | [] => (1, [])
  let cs3 : List Char :=
    match p.2 with
    | c0 :: cx :: r => if c0 = '0' ∧ (cx = 'x' ∨ cx = 'X') then r else c0 :: cx :: r
    | r => r
  let digits := cs3.takeWhile isJsHexDigit
  if digits.isEmpty then none
  else some (p.1 * (digits.foldl (fun acc c => acc * 16 + hexVal c) 0 : Nat))

/-- Model of storing a JavaScript number into a `Uint8Array` slot:
`NaN` becomes 0, other integers are taken modulo 256 (non-negative). -/
def jsToUint8 : Option Int → Nat
  | none => 0
  | some v => (v % 256).toNat

/-! ## Base64 (models of `btoa` and `atob`) -/

def b64Alphabet : List Char :=
  "ABCDEFGHIJKLMNOPQRSTUVWXYZabcdefghijklmnopqrstuvwxyz0123456789+/".data

/-- Character of a 6-bit value. -/
def b64Char (n : Nat) : Char := b64Alphabet.getD n 'A'

/-- Base64 encoding of a byte list, three bytes at a time, `=`-padded. -/
def b64EncodeBytes : List Nat → List Char
  | [] => []
  | [a] => [b64Char (a / 4), b64Char (a % 4 * 16), '=', '=']
  | [a, b] => [b64Char (a / 4), b64Char (a % 4 * 16 + b / 16), b64Char (b % 16 * 4), '=']
  | a :: b :: c :: rest =>
    b64Char (a / 4) :: b64Char (a % 4 * 16 + b / 16) :: b64Char (b % 16 * 4 + c / 64) ::
      b64Char (c % 64) :: b64EncodeBytes rest

/-- Model of `btoa(s)`: fails (throws `InvalidCharacterError`) when any
character is above U+00FF, else base64 of the Latin-1 bytes. -/
def btoa (s : String) : Option String :=
  if s.data.all (fun c => c.toNat < 256) then
    some ⟨b64EncodeBytes (s.data.map Char.toNat)⟩
  else none

/-- Index of a character in the base64 alphabet, `none` when absent. -/
def b64IndexNat (c : Char) : Option Nat :=
  match b64Alphabet.findIdx? (· = c) with
  | some i => some i
  | none => none

/-- Decode a list of 6-bit values, four at a time; a trailing group of two
or three values yields one or two bytes, extra bits discarded
(forgiving-base64). -/
def b64DecodeVals : List Nat → List Nat
  | a :: b :: c :: d :: rest =>
    (a * 4 + b / 16) :: (b % 16 * 16 + c / 4) :: (c % 4 * 64 + d) :: b64DecodeVals rest
  | [a, b] => [a * 4 + b / 16]
  | [a, b, c] => [a * 4 + b / 16, b % 16 * 16 + c / 4]
  | _ => []

/-- Strip one leading `=` character. -/
def stripEq1 : List Char → List Char
  | [] => []
  | c :: r => if c = '=' then r else c :: r

/-- Strip at most two trailing `=` characters. -/
def b64StripPad (cs : List Char) : List Char :=
  (stripEq1 (stripEq1 cs.reverse)).reverse

/-- ASCII whitespace removed by forgiving-base64. -/
def b64Ws (c : Char) : Bool :=
  c = '\t' || c = '\n' || c = Char.ofNat 12 || c = '\r' || c = ' '

/-- Alphabet indices of all characters, `none` if any is outside. -/
def b64IndexAll : List Char → Option (List Nat)
  | [] => some []
  | c :: cs =>
    match b64IndexNat c, b64IndexAll cs with
    | some v, some vs => some (v :: vs)
    | _, _ => none

/-- Model of `atob(s)` (forgiving-base64 decode): remove ASCII whitespace;
if the length is a multiple of four, strip up to two trailing `=`; fail if
the remaining length is `1 mod 4` or any character is outside the alphabet;
else decode, yielding a string of Latin-1 characters. -/
def atobDecode (cs : List Char) : Option String :=
  if cs.length % 4 = 1 then none
  else
    match b64IndexAll cs with
    | none => none
    | some vals => some ⟨(b64DecodeVals vals).map Char.ofNat⟩

def atob (s : String) : Option String :=
  if (s.data.filter (fun c => !b64Ws c)).length % 4 = 0 then
    atobDecode (b64StripPad (s.data.filter (fun c => !b64Ws c)))
  else
    atobDecode (s.data.filter (fun c => !b64Ws c))

/-- The padding-free part of the base64 encoding. -/
def b64Core : List Nat → List Char
  | [] => []
  | [a] => [b64Char (a / 4), b64Char (a % 4 * 16)]
  | [a, b] => [b64Char (a / 4), b64Char (a % 4 * 16 + b / 16), b64Char (b % 16 * 4)]
  | a :: b :: c :: rest =>
    b64Char (a / 4) :: b64Char (a % 4 * 16 + b / 16) :: b64Char (b % 16 * 4 + c / 64) ::
      b64Char (c % 64) :: b64Core rest

/-! ## JSON (models of `JSON.parse` and `JSON.stringify`) -/

/-- JSON values.  Number lexemes are kept as source text: no function of
this repository inspects a numeric value, only well-formedness matters. -/
inductive Json where
  | null : Json
  | bool (b : Bool) : Json
  | num (lexeme : String) : Json
  | str (s : String) : Json
  | arr (elems : List Json) : Json
  | obj (fields : List (String × Json)) : Json
  deriving Repr

/-- Escape of one character inside a JSON string literal, exactly as
`JSON.stringify` renders it. -/
def jsonEscapeChar (c : Char) : List Char :=
  if c = '"' then ['\\', '"']
  else if c = '\\' then ['\\', '\\']
  else if c.toNat = 8 then ['\\', 'b']
  else if c = '\t' then ['\\', 't']
  else if c = '\n' then ['\\', 'n']
  else if c.toNat = 12 then ['\\', 'f']
  else if c = '\r' then ['\\', 'r']
  else if c.toNat < 32 then ['\\', 'u', '0', '0', hexDigit (c.toNat / 16), hexDigit (c.toNat % 16)]
  else [c]

/-- Quoted, escaped JSON string literal. -/
def jsonQuote (s : String) : List Char :=
  '"' :: s.data.flatMap jsonEscapeChar ++ ['"']

/-- Comma-joined concatenation. -/
def joinComma : List (List Char) → List Char
  | [] => []
  | [x] => x
  | x :: xs => x ++ ',' :: joinComma xs

/-- Model of `JSON.stringify` (no spacing arguments, as called in the
source).  Object fields keep their stored order. -/
def Json.stringifyChars : Json → List Char
  | .null => "null".data
  | .bool true => "true".data
  | .bool false => "false".data
  | .num lex => lex.data
  | .str s => jsonQuote s
  | .arr l => '[' :: joinComma (l.attach.map (fun x => Json.stringifyChars x.1)) ++ [']']
  | .obj fs =>
    Char.ofNat 123 ::
      joinComma (fs.attach.map (fun x => jsonQuote x.1.1 ++ ':' :: Json.stringifyChars x.1.2)) ++
      [Char.ofNat 125]
  termination_by j => sizeOf j
  decreasing_by
  all_goals
    have h := List.sizeOf_lt_of_mem x.2
    first
    | (simp only [Json.arr.sizeOf_spec]; omega)
    | (have h2 : sizeOf x.1.2 < sizeOf x.1 := by
         obtain ⟨⟨k, v⟩, hm⟩ := x
         simp only [Prod.mk.sizeOf_spec]
         omega
       simp only [Json.obj.sizeOf_spec]
       omega)

def Json.stringify (j : Json) : String := ⟨j.stringifyChars⟩

/-- Whitespace accepted between JSON tokens. -/
def jsonWsCh (c : Char) : Bool :=
  c = ' ' || c = '\t' || c = '\n' || c = '\r'

def skipWs (cs : List Char) : List Char := cs.dropWhile jsonWsCh

def digitCh (c : Char) : Bool := '0' ≤ c && c ≤ '9'

/-- Lexer for a JSON string body, entered after the opening quote;
`acc` is the reversed content so far.  `\uXXXX` escapes in the surrogate
range are rejected (Lean strings hold Unicode scalar values). -/
def lexStrAux : List Char → List Char → Option (List Char × List Char)
  | [], _ => none
  | c :: r, acc =>
    if c = '"' then some (acc.reverse, r)
    else if c = '\\' then
      match r with
      | [] => none
      | e :: r2 =>
        if e = '"' then lexStrAux r2 ('"' :: acc)
        else if e = '\\' then lexStrAux r2 ('\\' :: acc)
        else if e = '/' then lexStrAux r2 ('/' :: acc)
        else if e = 'b' then lexStrAux r2 (Char.ofNat 8 :: acc)
        else if e = 'f' then lexStrAux r2 (Char.ofNat 12 :: acc)
        else if e = 'n' then lexStrAux r2 ('\n' :: acc)
        else if e = 'r' then lexStrAux r2 ('\r' :: acc)
        else if e = 't' then lexStrAux r2 ('\t' :: acc)
        else if e = 'u' then
          match r2 with
          | h1 :: h2 :: h3 :: h4 :: r3 =>
            if isJsHexDigit h1 && isJsHexDigit h2 && isJsHexDigit h3 && isJsHexDigit h4 then
              let code := hexVal h1 * 4096 + hexVal h2 * 256 + hexVal h3 * 16 + hexVal h4
              if 0xD800 ≤ code && code < 0xE000 then none
              else lexStrAux r3 (Char.ofNat code :: acc)
            else none
          | _ => none
        else none
    else if c.toNat < 32 then none
    else lexStrAux r (c :: acc)

/-- Lexer for a JSON number, returning its lexeme. -/
def lexNumber (cs : List Char) : Option (List Char × List Char) :=
  let (sign, r1) : List Char × List Char :=
    match cs with
    | '-' :: r => (['-'], r)
    | r => ([], r)
  let ip? : Option (List Char × List Char) :=
    match r1 with
    | '0' :: r => some (['0'], r)
    | c :: r => if '1' ≤ c && c ≤ '9' then some (c :: r.takeWhile digitCh, r.dropWhile digitCh) else none
    | [] => none
  match ip? with
  | none => none
  | some (ip, r2) =>
    let fp? : Option (List Char × List Char) :=
      match r2 with
      | '.' :: r =>
        let ds := r.takeWhile digitCh
        if ds.isEmpty then none else some ('.' :: ds, r.dropWhile digitCh)
      | r => some ([], r)
    match fp? with
    | none => none
    | some (fp, r3) =>
      let ep? : Option (List Char × List Char) :=
        match r3 with
        | e :: rest =>
          if e = 'e' || e = 'E' then
            let (es, r4) : List Char × List Char :=
              match rest with
              | '+' :: r => ([e, '+'], r)
              | '-' :: r => ([e, '-'], r)
              | r => ([e], r)
            let ds := r4.takeWhile digitCh
            if ds.isEmpty then none else some (es ++ ds, r4.dropWhile digitCh)
          else some ([], r3)
        | [] => some ([], r3)
      match ep? with
      | none => none
      | some (ep, r5) => some (sign ++ ip ++ fp ++ ep, r5)

mutual

/-- Fueled JSON value parser; the fuel passed at top level always suffices
(it shrinks only when at least one character has been consumed to the left). -/
def parseVal : Nat → List Char → Option (Json × List Char)
  | 0, _ => none
  | fuel + 1, cs =>
    let cs := skipWs cs
    match cs with
    | 'n' :: 'u' :: 'l' :: 'l' :: r => some (.null, r)
    | 't' :: 'r' :: 'u' :: 'e' :: r => some (.bool true, r)
    | 'f' :: 'a' :: 'l' :: 's' :: 'e' :: r => some (.bool false, r)
    | '"' :: r => (lexStrAux r []).map (fun p => (.str ⟨p.1⟩, p.2))
    | '[' :: r =>
      match skipWs r with
      | ']' :: r' => some (.arr [], r')
      | r' => parseArrElems fuel r' []
    | c :: r =>
      if c = Char.ofNat 123 then
        match skipWs r with
        | c' :: r' => if c' = Char.ofNat 125 then some (.obj [], r') else parseObjFields fuel (c' :: r') []
        | [] => none
      else if c = '-' || digitCh c then
        (lexNumber (c :: r)).map (fun p => (.num ⟨p.1⟩, p.2))
      else none
    | [] => none

/-- Elements of a non-empty JSON array, accumulated in reverse. -/
def parseArrElems : Nat → List Char → List Json → Option (Json × List Char)
  | 0, _, _ => none
  | fuel + 1, cs, acc =>
    match parseVal fuel cs with
    | none => none
    | some (v, r) =>
      match skipWs r with
      | ',' :: r' => parseArrElems fuel r' (v :: acc)
      | ']' :: r' => some (.arr (v :: acc).reverse, r')
      | _ => none

/-- Fields of a non-empty JSON object, accumulated in reverse. -/
def parseObjFields : Nat → List Char → List (String × Json) → Option (Json × List Char)
  | 0, _, _ => none
  | fuel + 1, cs, acc =>
    match skipWs cs with
    | '"' :: r =>
      match lexStrAux r [] with
      | none => none
      | some (key, r1) =>
        match skipWs r1 with
        | ':' :: r2 =>
          match parseVal fuel r2 with
          | none => none
          | some (v, r3) =>
            match skipWs r3 with
            | ',' :: r4 => parseObjFields fuel r4 ((⟨key⟩, v) :: acc)
            | c :: r4 =>
              if c = Char.ofNat 125 then some (.obj ((⟨key⟩, v) :: acc).reverse, r4) else none
            | [] => none
        | _ => none
    | _ => none

end

/-- Model of `JSON.parse(s)`: parse one value, allow trailing whitespace
only.  `none` models a thrown `SyntaxError`. -/
def jsonParse (s : String) : Option Json :=
  match parseVal (2 * s.data.length + 2) s.data with
  | some (v, rest) => if (skipWs rest).isEmpty then some v else none
  | none => none

/-- Model of the source's post-parse check on the approved-clients payload:
`Array.isArray(x) && x.every(item => typeof item === "string")`, returning
the strings. -/
def approvedOfJson : Json → Option (List String)
  | .arr l => l.mapM (fun j => match j with | .str s => some s | _ => none)
  | _ => none

/-- Field lookup `x.k` on a parsed JSON value (`undefined` is `none`). -/
def jsonGet : Json → String → Option Json
  | .obj fields, k => (fields.find? (fun f => f.1 == k)).map (fun f => f.2)
  | _, _ => none

/-- Truthiness of a parsed JSON number lexeme (zero is falsy).  Exotic
float underflow (for instance `1e-400`) is not modelled; no input of the
claims contains numbers. -/
def numLexTruthy (lex : String) : Bool :=
  lex.data.any (fun c => '1' ≤ c && c ≤ '9')

/-- JavaScript truthiness of a parsed JSON value. -/
def jsTruthy : Json → Bool
  | .null => false
  | .bool b => b
  | .num lex => numLexTruthy lex
  | .str s => !(s = "")
  | .arr _ => true
  | .obj _ => true

/-! ## Data model of `workers-oauth-utils.ts` -/

/-- Embedding of the `OAuthError` class: code, description, HTTP status. -/
structure OAuthError where
  code : String
  description : String
  statusCode : Nat
  deriving Repr, DecidableEq

/-- HTTP response as far as the claims observe it: status, body text, and
the `Set-Cookie` directives issued.  (The `Location` header of redirects
points at the upstream provider and is outside every claim; it is omitted.) -/
structure JsResponse where
  status : Nat
  body : Option String
  setCookies : List String
  deriving Repr, DecidableEq

/-- Embedding of `OAuthError.toResponse`: a JSON body
`{error, error_description}` with the error's status and no cookies. -/
def OAuthError.toResponse (e : OAuthError) : JsResponse :=
  { status := e.statusCode,
    body := some ("\x7b\"error\":" ++ String.mk (jsonQuote e.code) ++
      ",\"error_description\":" ++ String.mk (jsonQuote e.description) ++ "\x7d"),
    setCookies := [] }

/-- The slice of a Workers `Request` the source reads: the parsed `state`
query parameter (`new URL(request.url).searchParams.get("state")`) and the
`Cookie` header (`request.headers.get("Cookie")`); `none` models `null`. -/
structure Request where
  stateQuery : Option String
  cookieHeader : Option String

/-- One `FormData` value: a string field or a file entry. -/
inductive FormVal where
  | str (s : String) : FormVal
  | file : FormVal

/-- Parsed form data; `get` returns the first value under the name. -/
structure FormData where
  entries : List (String × FormVal)

def FormData.get (fd : FormData) (k : String) : Option FormVal :=
  (fd.entries.find? (fun e => e.1 == k)).map (fun e => e.2)

/-- The external key-value store (`KVNamespace`), as the association of
live keys to stored strings.  TTL expiry is enforced by the store itself
(the source never re-checks timestamps), so records simply disappear from
the association when they expire; no claim quantifies over expiry times. -/
abbrev KV := List (String × String)

def kvGet (kv : KV) (k : String) : Option String :=
  (kv.find? (fun p => p.1 == k)).map (fun p => p.2)

def kvPut (kv : KV) (k v : String) : KV :=
  (k, v) :: kv.filter (fun p => p.1 != k)

def kvDelete (kv : KV) (k : String) : KV :=
  kv.filter (fun p => p.1 != k)

structure OAuthStateResult where
  stateToken : String

structure ValidateStateResult where
  oauthReqInfo : Json
  clearCookie : String

structure BindStateResult where
  setCookie : String

structure ValidateCSRFResult where
  clearCookie : String
  deriving Repr, DecidableEq

/-! ## `workers-oauth-utils.ts` functions -/

/-- Embedding of `validateCSRFToken`.  JavaScript falsiness makes an empty
form token or an empty cookie value take the same branch as an absent one. -/
def validateCSRFToken (formData : FormData) (request : Request) :
    Except OAuthError ValidateCSRFResult :=
  match formData.get "csrf_token" with
  | some (.str s) =>
    if s = "" then .error ⟨"invalid_request", "Missing CSRF token in form data", 400⟩
    else
      match cookieValue (request.cookieHeader.getD "") "__Host-CSRF_TOKEN" with
      | none => .error ⟨"invalid_request", "Missing CSRF token cookie", 400⟩
      | some tokenFromCookie =>
        if tokenFromCookie = "" then
          .error ⟨"invalid_request", "Missing CSRF token cookie", 400⟩
        else if s ≠ tokenFromCookie then
          .error ⟨"invalid_request", "CSRF token mismatch", 400⟩
        else
          .ok ⟨"__Host-CSRF_TOKEN=; HttpOnly; Secure; Path=/; SameSite=Lax; Max-Age=0"⟩
  | _ => .error ⟨"invalid_request", "Missing CSRF token in form data", 400⟩

/-- Embedding of `createOAuthState`.  `stateToken` stands for the value of
`crypto.randomUUID()`; the store's TTL argument is enforced by the store. -/
def createOAuthState (oauthReqInfo : Json) (kv : KV) (stateToken : String) :
    OAuthStateResult × KV :=
  (⟨stateToken⟩, kvPut kv ("oauth:state:" ++ stateToken) (Json.stringify oauthReqInfo))

/-- Embedding of `bindStateToSession`. -/
def bindStateToSession (stateToken : String) : BindStateResult :=
  ⟨"__Host-CONSENTED_STATE=" ++ sha256Hex stateToken ++
    "; HttpOnly; Secure; Path=/; SameSite=Lax; Max-Age=600"⟩

/-- Embedding of `validateOAuthState`, with the store threaded explicitly;
the returned `KV` is the store after the call. -/
def validateOAuthState (request : Request) (kv : KV) :
    Except OAuthError ValidateStateResult × KV :=
  match request.stateQuery with
  | none => (.error ⟨"invalid_request", "Missing state parameter", 400⟩, kv)
  | some st =>
    if st = "" then (.error ⟨"invalid_request", "Missing state parameter", 400⟩, kv)
    else
      match kvGet kv ("oauth:state:" ++ st) with
      | none => (.error ⟨"invalid_request", "Invalid or expired state", 400⟩, kv)
      | some storedDataJson =>
        if storedDataJson = "" then
          (.error ⟨"invalid_request", "Invalid or expired state", 400⟩, kv)
        else
          match cookieValue (request.cookieHeader.getD "") "__Host-CONSENTED_STATE" with
          | none =>
            (.error ⟨"invalid_request",
              "Missing session binding cookie - authorization flow must be restarted", 400⟩, kv)
          | some consentedStateHash =>
            if consentedStateHash = "" then
              (.error ⟨"invalid_request",
                "Missing session binding cookie - authorization flow must be restarted", 400⟩, kv)
            else if sha256Hex st ≠ consentedStateHash then
              (.error ⟨"invalid_request",
                "State token does not match session - possible CSRF attack detected", 400⟩, kv)
            else
              match jsonParse storedDataJson with
              | none => (.error ⟨"server_error", "Invalid state data", 500⟩, kv)
              | some oauthReqInfo =>
                (.ok ⟨oauthReqInfo, "__Host-CONSENTED_STATE=; HttpOnly; Secure; Path=/; SameSite=Lax; Max-Age=0"⟩,
                 kvDelete kv ("oauth:state:" ++ st))

/-- Embedding of `signData`: hex of the HMAC-SHA-256 of `data` keyed by
`secret`. -/
def signData (data secret : String) : String :=
  bytesToHex (hmacSha256 secret data)

/-- Line terminators that JavaScript's `.` never matches. -/
def lineTerm (c : Char) : Bool :=
  c = '\n' || c = '\r' || c = Char.ofNat 0x2028 || c = Char.ofNat 0x2029

/-- Model of `signatureHex.match(/.{1,2}/g)`: successive matches of one or
two non-line-terminator characters; the empty match list stands for the
`null` return. -/
def reChunks12 : List Char → List (List Char)
  | [] => []
  | c :: cs =>
    if lineTerm c then reChunks12 cs
    else
      match cs with
      | [] => [[c]]
      | d :: ds =>
        if lineTerm d then [c] :: reChunks12 ds
        else [c, d] :: reChunks12 ds

/-- The byte list the source's lenient hex decoding extracts from a
signature string. -/
def sigDecodedBytes (signatureHex : String) : List Nat :=
  (reChunks12 signatureHex.data).map (fun chunk => jsToUint8 (jsParseIntHex chunk))

/-- Embedding of `verifySignature`: decode the hex (leniently, via
`parseInt(_, 16)` and `Uint8Array` coercion) and compare the bytes with
the recomputed HMAC (`crypto.subtle.verify`).  A `null` match result makes
the non-null assertion throw, which the function catches as `false`. -/
def verifySignature (signatureHex data secret : String) : Bool :=
  if (reChunks12 signatureHex.data).isEmpty then false
  else sigDecodedBytes signatureHex == hmacSha256 secret data

/-- Model of `JSON.stringify` applied to a string array (the only shape
`addApprovedClient` serialises); agrees with `Json.stringify` on
`.arr (l.map .str)`. -/
def stringifyStringArray (l : List String) : String :=
  ⟨'[' :: joinComma (l.map jsonQuote) ++ [']']⟩

/-- Embedding of `getApprovedClientsFromCookie`.  The `.error ()` case is
the uncaught exception of `atob` on a malformed base64 payload; every other
failure returns `null` (here `.ok none`). -/
def getApprovedClientsFromCookie (request : Request) (cookieSecret : String) :
    Except Unit (Option (List String)) :=
  match request.cookieHeader with
  | none => .ok none
  | some h =>
    if h = "" then .ok none
    else
      match cookieValue h "__Host-APPROVED_CLIENTS" with
      | none => .ok none
      | some cv =>
        if (splitCh '.' cv.data).length ≠ 2 then .ok none
        else
          match atob ⟨(splitCh '.' cv.data).getD 1 []⟩ with
          | none => .error ()
          | some payload =>
            if !verifySignature ⟨(splitCh '.' cv.data).getD 0 []⟩ payload cookieSecret then
              .ok none
            else
              match jsonParse payload with
              | none => .ok none
              | some j =>
                match approvedOfJson j with
                | none => .ok none
                | some clients => .ok (some clients)

/-- Embedding of `isClientApproved`:
`approvedClients?.includes(clientId) ?? false`. -/
def isClientApproved (request : Request) (clientId : String) (cookieSecret : String) :
    Except Unit Bool :=
  match getApprovedClientsFromCookie request cookieSecret with
  | .error e => .error e
  | .ok approved => .ok (match approved with | some l => l.contains clientId | none => false)

/-- Model of `Array.from(new Set(l))`: first occurrences, insertion order. -/
def jsSetFrom (l : List String) : List String :=
  l.foldl (fun acc x => if acc.contains x then acc else acc ++ [x]) []

/-- Embedding of `addApprovedClient`.  The `.error ()` cases are the
uncaught exceptions: `atob` inside the cookie read, and `btoa` on a payload
with characters above U+00FF. -/
def addApprovedClient (request : Request) (clientId : String) (cookieSecret : String) :
    Except Unit String :=
  match getApprovedClientsFromCookie request cookieSecret with
  | .error e => .error e
  | .ok approved =>
    let existing := approved.getD []
    let updated := jsSetFrom (existing ++ [clientId])
    let payload := stringifyStringArray updated
    let signature := signData payload cookieSecret
    match btoa payload with
    | none => .error ()
    | some b64 =>
      .ok ("__Host-APPROVED_CLIENTS=" ++ signature ++ "." ++ b64 ++
        "; HttpOnly; Secure; Path=/; SameSite=Lax; Max-Age=2592000")

/-! ## The consent POST handler (`app.post("/authorize")` of
`notion-handler.ts`) -/

/-- Embedding of the POST `/authorize` handler.  `stateToken` stands for
the `crypto.randomUUID()` drawn inside `createOAuthState`; `formData` is
the already-parsed form body.  The outer `try/catch` converts an
`OAuthError` to its response and any other exception to a 500 text
response (its message text is not modelled).  A truthy non-string
`clientId` value is outside the model (the `AuthRequest` type declares it
as a string); that branch is mapped to the 500 response. -/
def authorizePost (formData : FormData) (request : Request) (kv : KV)
    (cookieSecret : String) (stateToken : String) : JsResponse × KV :=
  match validateCSRFToken formData request with
  | .error e => (e.toResponse, kv)
  | .ok _ =>
    match formData.get "state" with
    | some (.str enc) =>
      if enc = "" then ({ status := 400, body := some "Missing state", setCookies := [] }, kv)
      else
        match (atob enc).bind jsonParse with
        | none => ({ status := 400, body := some "Invalid state data", setCookies := [] }, kv)
        | some stateJson =>
          match jsonGet stateJson "oauthReqInfo" with
          | none => ({ status := 400, body := some "Invalid request", setCookies := [] }, kv)
          | some oauthReqInfo =>
            match jsonGet oauthReqInfo "clientId" with
            | none => ({ status := 400, body := some "Invalid request", setCookies := [] }, kv)
            | some cidJson =>
              if !jsTruthy cidJson then
                ({ status := 400, body := some "Invalid request", setCookies := [] }, kv)
              else
                match cidJson with
                | .str clientId =>
                  match addApprovedClient request clientId cookieSecret with
                  | .error _ => ({ status := 500, body := none, setCookies := [] }, kv)
                  | .ok approvedCookie =>
                    let (stRes, kv') := createOAuthState oauthReqInfo kv stateToken
                    let sessionCookie := (bindStateToSession stRes.stateToken).setCookie
                    ({ status := 302, body := none,
                       setCookies := [approvedCookie, sessionCookie] }, kv')
                | _ => ({ status := 500, body := none, setCookies := [] }, kv)
    | _ => ({ status := 400, body := some "Missing state", setCookies := [] }, kv)

/-! ## Lemmas: hex digits and SHA-256ature -/

/-- The sixteen lowercase hex digit characters. -/
def hexDigitChars : List Char := "0123456789abcdef".data

lemma hexDigit_mem {n : Nat} (h : n < 16) : hexDigit n ∈ hexDigitChars := by
  interval_cases n <;> decide

lemma hexDigit_facts {n : Nat} (h : n < 16) :
    isJsHexDigit (hexDigit n) = true ∧ jsWs (hexDigit n) = false ∧
    lineTerm (hexDigit n) = false ∧ hexDigit n ≠ ';' ∧ hexDigit n ≠ '.' ∧
    hexDigit n ≠ '-' ∧ hexDigit n ≠ '+' ∧ hexDigit n ≠ 'x' ∧ hexDigit n ≠ 'X' ∧
    (hexDigit n).toNat < 256 := by
  interval_cases n <;> exact ⟨rfl, rfl, rfl, by decide, by decide, by decide, by decide,
    by decide, by decide, by decide⟩

lemma hexVal_hexDigit {n : Nat} (h : n < 16) : hexVal (hexDigit n) = n := by
  interval_cases n <;> decide

lemma mem_wordBytes_lt {b w : Nat} (h : b ∈ wordBytes w) : b < 256 := by
  simp only [wordBytes, List.mem_cons, List.not_mem_nil, or_false] at h
  rcases h with h | h | h | h <;> omega

lemma sha256_byte_lt {msg : List Nat} : ∀ b ∈ sha256 msg, b < 256 := by
  intro b hb
  simp only [sha256, List.mem_flatMap] at hb
  obtain ⟨w, _, hw⟩ := hb
  exact mem_wordBytes_lt hw

lemma sha256Round_length (st : List Nat) (kw : Nat × Nat) :
    (sha256Round st kw).length = st.length := by
  unfold sha256Round
  split <;> simp_all

lemma foldl_sha256Round_length (l : List (Nat × Nat)) (st : List Nat) :
    (l.foldl sha256Round st).length = st.length := by
  induction l generalizing st with
  | nil => rfl
  | cons x xs ih => simp [List.foldl_cons, ih, sha256Round_length]

lemma sha256Block_length (h bl : List Nat) : (sha256Block h bl).length = h.length := by
  unfold sha256Block
  simp [List.length_zip, foldl_sha256Round_length]

lemma foldl_sha256Block_length (l : List (List Nat)) (h : List Nat) :
    (l.foldl sha256Block h).length = h.length := by
  induction l generalizing h with
  | nil => rfl
  | cons x xs ih => simp [List.foldl_cons, ih, sha256Block_length]

lemma flatMap_wordBytes_length (l : List Nat) : (l.flatMap wordBytes).length = 4 * l.length := by
  induction l with
  | nil => rfl
  | cons x xs ih => simp [List.flatMap_cons, ih, wordBytes]; ring

lemma sha256_length (msg : List Nat) : (sha256 msg).length = 32 := by
  unfold sha256
  rw [flatMap_wordBytes_length, foldl_sha256Block_length]
  rfl

lemma hmacSha256_length (secret data : String) : (hmacSha256 secret data).length = 32 := by
  unfold hmacSha256
  exact sha256_length _

lemma hmacSha256_ne_nil (secret data : String) : hmacSha256 secret data ≠ [] := by
  intro h
  have := hmacSha256_length secret data
  rw [h] at this
  simp at this

lemma hmacSha256_byte_lt {secret data : String} : ∀ b ∈ hmacSha256 secret data, b < 256 := by
  unfold hmacSha256
  exact sha256_byte_lt

/-! ## Lemmas: hex encode/decode round trip -/

lemma reChunks12_flatMap_byteHex {bs : List Nat} (h : ∀ b ∈ bs, b < 256) :
    reChunks12 (bs.flatMap byteHex) = bs.map byteHex := by
  induction bs with
  | nil => rfl
  | cons b rest ih =>
    have hb := h b (List.mem_cons_self _ _)
    have h1 : b / 16 < 16 := by omega
    have h2 : b % 16 < 16 := by omega
    have f1 := hexDigit_facts h1
    have f2 := hexDigit_facts h2
    simp only [List.flatMap_cons, byteHex, List.cons_append, List.nil_append]
    rw [reChunks12]
    simp only [f1.2.2.1, if_false, f2.2.2.1, Bool.false_eq_true, ite_false]
    rw [ih (fun x hx => h x (List.mem_cons_of_mem _ hx))]
    rfl

lemma takeWhile_of_all {p : Char → Bool} {l : List Char} (h : ∀ c ∈ l, p c = true) :
    l.takeWhile p = l := by
  induction l with
  | nil => rfl
  | cons c cs ih =>
    rw [List.takeWhile_cons, h c (List.mem_cons_self _ _)]
    simp [ih (fun x hx => h x (List.mem_cons_of_mem _ hx))]

lemma jsParseIntHex_byteHex {b : Nat} (h : b < 256) :
    jsParseIntHex (byteHex b) = some (b : Int) := by
  have h1 : b / 16 < 16 := by omega
  have h2 : b % 16 < 16 := by omega
  have f1 := hexDigit_facts h1
  have f2 := hexDigit_facts h2
  unfold jsParseIntHex byteHex
  rw [List.dropWhile_cons]
  simp only [f1.2.1, Bool.false_eq_true, ite_false]
  rw [if_neg f1.2.2.2.2.2.1, if_neg f1.2.2.2.2.2.2.1]
  have hnx : ¬(hexDigit (b / 16) = '0' ∧ (hexDigit (b % 16) = 'x' ∨ hexDigit (b % 16) = 'X')) := by
    rintro ⟨-, hx | hx⟩
    · exact f2.2.2.2.2.2.2.2.1 hx
    · exact f2.2.2.2.2.2.2.2.2.1 hx
  dsimp only
  rw [if_neg hnx]
  have ht : List.takeWhile isJsHexDigit [hexDigit (b / 16), hexDigit (b % 16)] =
      [hexDigit (b / 16), hexDigit (b % 16)] := by
    apply takeWhile_of_all
    intro c hc
    simp only [List.mem_cons, List.not_mem_nil, or_false] at hc
    rcases hc with rfl | rfl
    · exact f1.1
    · exact f2.1
  rw [ht]
  simp only [List.isEmpty_cons, ite_false, List.foldl_cons, List.foldl_nil,
    hexVal_hexDigit h1, hexVal_hexDigit h2]
  have : (0 * 16 + b / 16) * 16 + b % 16 = b := by omega
  rw [this]
  simp

lemma jsToUint8_byte {b : Nat} (h : b < 256) : jsToUint8 (some (b : Int)) = b := by
  show ((b : Int) % 256).toNat = b
  rw [Int.emod_eq_of_lt (by positivity) (by exact_mod_cast h)]
  simp

lemma sigDecodedBytes_hex {bs : List Nat} (h : ∀ b ∈ bs, b < 256) :
    sigDecodedBytes (bytesToHex bs) = bs := by
  unfold sigDecodedBytes bytesToHex
  show (reChunks12 (bs.flatMap byteHex)).map _ = bs
  rw [reChunks12_flatMap_byteHex h, List.map_map]
  have : ∀ b ∈ bs, (fun chunk => jsToUint8 (jsParseIntHex chunk)) (byteHex b) = b := by
    intro b hb
    simp only [jsParseIntHex_byteHex (h b hb)]
    exact jsToUint8_byte (h b hb)
  calc (bs.map fun b => (fun chunk => jsToUint8 (jsParseIntHex chunk)) (byteHex b))
      = bs.map id := List.map_congr_left this
    _ = bs := List.map_id bs

lemma verifySignature_signData (data secret : String) :
    verifySignature (signData data secret) data secret = true := by
  unfold verifySignature signData
  have hlt := @hmacSha256_byte_lt secret data
  have hne := hmacSha256_ne_nil secret data
  rw [sigDecodedBytes_hex hlt]
  have hchunks : reChunks12 (bytesToHex (hmacSha256 secret data)).data =
      (hmacSha256 secret data).map byteHex := by
    show reChunks12 ((hmacSha256 secret data).flatMap byteHex) = _
    exact reChunks12_flatMap_byteHex hlt
  rw [hchunks]
  have hnonempty : ((hmacSha256 secret data).map byteHex).isEmpty = false := by
    cases hm : hmacSha256 secret data with
    | nil => exact absurd hm hne
    | cons x xs => rfl
  rw [hnonempty]
  simp

lemma verifySignature_true_iff (signatureHex data secret : String)
    (h : ¬(reChunks12 signatureHex.data).isEmpty = true) :
    verifySignature signatureHex data secret = true ↔
      sigDecodedBytes signatureHex = hmacSha256 secret data := by
  unfold verifySignature
  rw [Bool.not_eq_true] at h
  rw [h]
  simp only [Bool.false_eq_true, ite_false]
  constructor
  · intro hb
    exact eq_of_beq hb
  · intro he
    rw [he]
    simp

/-! ## Lemmas: cookie parsing -/

lemma splitCh_ne_nil (sep : Char) (cs : List Char) : splitCh sep cs ≠ [] := by
  cases cs with
  | nil => simp [splitCh]
  | cons c rest =>
    rw [splitCh]
    cases h : splitCh sep rest with
    | nil => simp
    | cons hd tl => by_cases hc : c = sep <;> simp [hc]

lemma splitCh_not_mem (sep : Char) {a : List Char} (ha : sep ∉ a) :
    splitCh sep a = [a] := by
  induction a with
  | nil => rfl
  | cons c rest ih =>
    have hc : c ≠ sep := fun h => ha (h ▸ List.mem_cons_self c rest)
    have hrest : sep ∉ rest := fun h => ha (List.mem_cons_of_mem _ h)
    rw [splitCh, ih hrest]
    simp [hc]

lemma splitCh_append_sep (sep : Char) {a : List Char} (b : List Char) (ha : sep ∉ a) :
    splitCh sep (a ++ sep :: b) = a :: splitCh sep b := by
  induction a with
  | nil =>
    rw [List.nil_append, splitCh]
    rcases h : splitCh sep b with _ | ⟨hd, tl⟩
    · exact absurd h (splitCh_ne_nil sep b)
    · simp
  | cons c rest ih =>
    have hc : c ≠ sep := fun h => ha (h ▸ List.mem_cons_self c rest)
    have hrest : sep ∉ rest := fun h => ha (List.mem_cons_of_mem _ h)
    rw [List.cons_append, splitCh, ih hrest]
    simp [hc]

lemma dropWhile_of_head_neg {p : Char → Bool} {l : List Char}
    (h : l = [] ∨ ∃ c rest, l = c :: rest ∧ p c = false) :
    l.dropWhile p = l := by
  rcases h with rfl | ⟨c, rest, rfl, hc⟩
  · rfl
  · rw [List.dropWhile_cons, hc]
    simp

lemma trimChars_of_no_ws {l : List Char} (h : ∀ c ∈ l, jsWs c = false) :
    trimChars l = l := by
  unfold trimChars
  have h1 : l.dropWhile jsWs = l := by
    cases l with
    | nil => rfl
    | cons c rest =>
      rw [List.dropWhile_cons, h c (List.mem_cons_self _ _)]
      simp
  rw [h1]
  have h2 : l.reverse.dropWhile jsWs = l.reverse := by
    cases hr : l.reverse with
    | nil => rfl
    | cons c rest =>
      have : c ∈ l := by
        have : c ∈ l.reverse := hr ▸ List.mem_cons_self _ _
        exact List.mem_reverse.mp this
      rw [List.dropWhile_cons, h c this]
      simp
  rw [h2, List.reverse_reverse]

lemma startsWithL_append (p rest : List Char) : startsWithL p (p ++ rest) = true := by
  induction p with
  | nil => rfl
  | cons c cs ih => simp [startsWithL, ih]

/-- Extraction of a cookie directly prefixed to the header: the header is
`name=value` optionally followed by `;`-separated attributes, and neither
the name nor the value contains `;` or whitespace. -/
lemma cookieValue_eq (name value : String) (tail : List Char)
    (hname : ∀ c ∈ name.data, c ≠ ';' ∧ jsWs c = false)
    (hvalue : ∀ c ∈ value.data, c ≠ ';' ∧ jsWs c = false) :
    cookieValue ⟨name.data ++ '=' :: value.data ++ ';' :: tail⟩ name = some value := by
  unfold cookieValue
  have hA : ';' ∉ name.data ++ '=' :: value.data := by
    intro hm
    rcases List.mem_append.mp hm with hm | hm
    · exact (hname _ hm).1 rfl
    · rcases List.mem_cons.mp hm with hm | hm
      · exact absurd hm.symm (by decide)
      · exact (hvalue _ hm).1 rfl
  have hsplit : splitCh ';' (name.data ++ '=' :: value.data ++ ';' :: tail) =
      (name.data ++ '=' :: value.data) :: splitCh ';' tail := by
    have := splitCh_append_sep ';' tail hA
    simpa using this
  show (match ((splitCh ';' (name.data ++ '=' :: value.data ++ ';' :: tail)).map trimChars).find?
      (fun c => startsWithL (name.data ++ ['=']) c) with
    | none => none
    | some c => some ⟨c.drop (name.data ++ ['=']).length⟩) = some value
  rw [hsplit]
  have htrim : trimChars (name.data ++ '=' :: value.data) = name.data ++ '=' :: value.data := by
    apply trimChars_of_no_ws
    intro c hc
    rcases List.mem_append.mp hc with hm | hm
    · exact (hname _ hm).2
    · rcases List.mem_cons.mp hm with hm | hm
      · subst hm; rfl
      · exact (hvalue _ hm).2
  rw [List.map_cons, htrim]
  have hstart : startsWithL (name.data ++ ['=']) (name.data ++ '=' :: value.data) = true := by
    have : name.data ++ '=' :: value.data = (name.data ++ ['=']) ++ value.data := by simp
    rw [this]
    exact startsWithL_append _ _
  rw [List.find?_cons_of_pos _ hstart]
  have hdrop : (name.data ++ '=' :: value.data).drop (name.data ++ ['=']).length = value.data := by
    have : name.data ++ '=' :: value.data = (name.data ++ ['=']) ++ value.data := by simp
    rw [this, List.drop_left]
  simp only [hdrop]

/-- Extraction when the `name=value` pair is the entire header. -/
lemma cookieValue_eq_noTail (name value : String)
    (hname : ∀ c ∈ name.data, c ≠ ';' ∧ jsWs c = false)
    (hvalue : ∀ c ∈ value.data, c ≠ ';' ∧ jsWs c = false) :
    cookieValue ⟨name.data ++ '=' :: value.data⟩ name = some value := by
  unfold cookieValue
  have hA : ';' ∉ name.data ++ '=' :: value.data := by
    intro hm
    rcases List.mem_append.mp hm with hm | hm
    · exact (hname _ hm).1 rfl
    · rcases List.mem_cons.mp hm with hm | hm
      · exact absurd hm.symm (by decide)
      · exact (hvalue _ hm).1 rfl
  show (match ((splitCh ';' (name.data ++ '=' :: value.data)).map trimChars).find?
      (fun c => startsWithL (name.data ++ ['=']) c) with
    | none => none
    | some c => some ⟨c.drop (name.data ++ ['=']).length⟩) = some value
  rw [splitCh_not_mem ';' hA]
  have htrim : trimChars (name.data ++ '=' :: value.data) = name.data ++ '=' :: value.data := by
    apply trimChars_of_no_ws
    intro c hc
    rcases List.mem_append.mp hc with hm | hm
    · exact (hname _ hm).2
    · rcases List.mem_cons.mp hm with hm | hm
      · subst hm; rfl
      · exact (hvalue _ hm).2
  rw [List.map_cons, List.map_nil, htrim]
  have hstart : startsWithL (name.data ++ ['=']) (name.data ++ '=' :: value.data) = true := by
    have : name.data ++ '=' :: value.data = (name.data ++ ['=']) ++ value.data := by simp
    rw [this]
    exact startsWithL_append _ _
  rw [List.find?_cons_of_pos _ hstart]
  have hdrop : (name.data ++ '=' :: value.data).drop (name.data ++ ['=']).length = value.data := by
    have : name.data ++ '=' :: value.data = (name.data ++ ['=']) ++ value.data := by simp
    rw [this, List.drop_left]
  simp only [hdrop]

/-! ## Lemmas: key-value store and digest strings -/

lemma kvGet_kvDelete (kv : KV) (k : String) : kvGet (kvDelete kv k) k = none := by
  induction kv with
  | nil => rfl
  | cons p rest ih =>
    unfold kvDelete at *
    rw [List.filter_cons]
    by_cases h : p.1 = k
    · have hb : (p.1 != k) = false := by simp [h]
      rw [hb]
      simpa using ih
    · have hb : (p.1 != k) = true := by simp [h]
      rw [hb]
      simp only [ite_true]
      unfold kvGet at *
      rw [List.find?_cons_of_neg]
      · exact ih
      · simp [h]

lemma sha256Hex_data (s : String) :
    (sha256Hex s).data = (sha256 (utf8Encode s)).flatMap byteHex := rfl

lemma sha256Hex_chars (s : String) : ∀ c ∈ (sha256Hex s).data, c ∈ hexDigitChars := by
  intro c hc
  rw [sha256Hex_data] at hc
  rw [List.mem_flatMap] at hc
  obtain ⟨b, hb, hcb⟩ := hc
  have hblt : b < 256 := sha256_byte_lt b hb
  simp only [byteHex, List.mem_cons, List.not_mem_nil, or_false] at hcb
  rcases hcb with rfl | rfl
  · exact hexDigit_mem (by omega)
  · exact hexDigit_mem (by omega)

lemma hexDigitChars_cookie_facts : ∀ c ∈ hexDigitChars, c ≠ ';' ∧ jsWs c = false := by
  decide

lemma sha256Hex_ne_empty (s : String) : sha256Hex s ≠ "" := by
  intro h
  have hd : (sha256Hex s).data = [] := by rw [h]
  rw [sha256Hex_data] at hd
  have hl := sha256_length (utf8Encode s)
  cases hm : sha256 (utf8Encode s) with
  | nil =>
    rw [hm] at hl
    exact absurd hl (by decide)
  | cons b rest =>
    rw [hm] at hd
    simp [byteHex] at hd

/-- The session-binding cookie directive parses back to the digest. -/
lemma cookieValue_bindCookie (t : String) :
    cookieValue (bindStateToSession t).setCookie "__Host-CONSENTED_STATE" =
      some (sha256Hex t) := by
  have hshape : (bindStateToSession t).setCookie =
      ⟨"__Host-CONSENTED_STATE".data ++ '=' :: (sha256Hex t).data ++
        ';' :: " HttpOnly; Secure; Path=/; SameSite=Lax; Max-Age=600".data⟩ := by
    apply String.ext
    show ("__Host-CONSENTED_STATE=" ++ sha256Hex t ++
      "; HttpOnly; Secure; Path=/; SameSite=Lax; Max-Age=600").data = _
    rw [String.data_append, String.data_append]
    rfl
  rw [hshape]
  apply cookieValue_eq
  · decide
  · intro c hc
    exact hexDigitChars_cookie_facts c (sha256Hex_chars t c hc)

/-! ## Claims -/

/-- C1 (corrected), counterexample: the three CSRF failure causes all raise
`invalid_request`/400, but their `error_description` texts differ and are
serialised into the client-visible response body by `toResponse`, so the
error does reveal which half (form token, cookie, or match) failed. -/
theorem C1_counterexample :
    validateCSRFToken ⟨[]⟩ ⟨none, none⟩ =
      .error ⟨"invalid_request", "Missing CSRF token in form data", 400⟩ ∧
    validateCSRFToken ⟨[("csrf_token", .str "T1")]⟩ ⟨none, none⟩ =
      .error ⟨"invalid_request", "Missing CSRF token cookie", 400⟩ ∧
    validateCSRFToken ⟨[("csrf_token", .str "T1")]⟩ ⟨none, some "__Host-CSRF_TOKEN=T2"⟩ =
      .error ⟨"invalid_request", "CSRF token mismatch", 400⟩ ∧
    OAuthError.toResponse ⟨"invalid_request", "Missing CSRF token in form data", 400⟩ ≠
      OAuthError.toResponse ⟨"invalid_request", "Missing CSRF token cookie", 400⟩ ∧
    OAuthError.toResponse ⟨"invalid_request", "Missing CSRF token cookie", 400⟩ ≠
      OAuthError.toResponse ⟨"invalid_request", "CSRF token mismatch", 400⟩ := by
  exact ⟨rfl, rfl, rfl, by decide, by decide⟩

/-- C1 (corrected), amended: every CSRF validation failure carries the
uniform error code `invalid_request` and status 400; the description text,
however, differs per cause (see the counterexample). -/
theorem C1_theorem (formData : FormData) (request : Request) (e : OAuthError)
    (h : validateCSRFToken formData request = .error e) :
    e.code = "invalid_request" ∧ e.statusCode = 400 := by
  unfold validateCSRFToken at h
  repeat' split at h
  all_goals simp_all
  all_goals
    rw [← h]
    exact ⟨rfl, rfl⟩

/-- Witness for `C1_theorem` at a concrete failing request. -/
theorem C1_witness :
    ∃ e, validateCSRFToken ⟨[]⟩ ⟨none, none⟩ = .error e ∧
      e.code = "invalid_request" ∧ e.statusCode = 400 :=
  ⟨⟨"invalid_request", "Missing CSRF token in form data", 400⟩, rfl,
    C1_theorem ⟨[]⟩ ⟨none, none⟩ _ rfl⟩

/-- C2 (code bug): a cookie whose base64 payload half is malformed makes
`atob` throw outside any try/catch, so the exception escapes
`getApprovedClientsFromCookie` and `isClientApproved` instead of yielding
`false`; the spec says any verification failure yields `false` and never
throws. -/
theorem C2_theorem :
    getApprovedClientsFromCookie ⟨none, some "__Host-APPROVED_CLIENTS=ab.$$$"⟩ "secret-1" =
      .error () ∧
    isClientApproved ⟨none, some "__Host-APPROVED_CLIENTS=ab.$$$"⟩ "client-1" "secret-1" =
      .error () :=
  ⟨rfl, rfl⟩

/-- C5 (corrected), counterexample: a signature string differing from
`signData`'s output in one byte (an uppercase second hex digit) still
verifies, because the hex decoding is case insensitive; this refutes
"flipping any byte of the signature makes verification false". -/
theorem C5_counterexample :
    signData "data" "secret" =
      "1b2c16b75bd2a870c114153ccda5bcfca63314bc722fa160d690de133ccbb9db" ∧
    "1B2c16b75bd2a870c114153ccda5bcfca63314bc722fa160d690de133ccbb9db" ≠
      signData "data" "secret" ∧
    verifySignature "1B2c16b75bd2a870c114153ccda5bcfca63314bc722fa160d690de133ccbb9db"
      "data" "secret" = true := by
  exact ⟨rfl, by decide, rfl⟩

/-- C5 (corrected), amended: `signData` is the deterministic hex of the
HMAC; the round trip `verifySignature (signData d k) d k` always holds;
and a signature verifies only when its decoded bytes equal the MAC — the
comparison is on decoded bytes, so distinct strings decoding to the same
bytes (for instance differing in hex-digit case) also verify. -/
theorem C5_theorem :
    (∀ d k : String, signData d k = bytesToHex (hmacSha256 k d)) ∧
    (∀ d k : String, verifySignature (signData d k) d k = true) ∧
    (∀ sig d k : String, verifySignature sig d k = true →
      sigDecodedBytes sig = hmacSha256 k d) := by
  refine ⟨fun d k => rfl, verifySignature_signData, ?_⟩
  intro sig d k h
  unfold verifySignature at h
  by_cases he : (reChunks12 sig.data).isEmpty
  · rw [he] at h
    simp at h
  · rw [Bool.not_eq_true] at he
    rw [he] at h
    simp only [Bool.false_eq_true, ite_false] at h
    exact eq_of_beq h

/-- Witness for `C5_theorem` at concrete data and secret. -/
theorem C5_witness :
    verifySignature (signData "d" "k") "d" "k" = true ∧
    sigDecodedBytes (signData "d" "k") = hmacSha256 "k" "d" :=
  ⟨C5_theorem.2.1 "d" "k", C5_theorem.2.2 _ "d" "k" (C5_theorem.2.1 "d" "k")⟩

/-- C6 (confirmed): when CSRF validation fails on the consent POST, the
handler returns the error response unchanged — no approved-clients cookie,
no state record written, no session cookie; the store is untouched. -/
theorem C6_theorem (formData : FormData) (request : Request) (kv : KV)
    (cookieSecret stateToken : String) (e : OAuthError)
    (h : validateCSRFToken formData request = .error e) :
    authorizePost formData request kv cookieSecret stateToken = (e.toResponse, kv) ∧
    e.toResponse.setCookies = [] := by
  constructor
  · unfold authorizePost
    rw [h]
  · rfl

/-- Witness for `C6_theorem` at a concrete failing form. -/
theorem C6_witness :
    authorizePost ⟨[]⟩ ⟨none, none⟩ [("k", "v")] "sec" "tok" =
      ((⟨"invalid_request", "Missing CSRF token in form data", 400⟩ : OAuthError).toResponse,
        [("k", "v")]) :=
  (C6_theorem ⟨[]⟩ ⟨none, none⟩ [("k", "v")] "sec" "tok"
    ⟨"invalid_request", "Missing CSRF token in form data", 400⟩ rfl).1

/-- C7 (corrected), counterexample: an empty-string form token together
with an empty-valued CSRF cookie — both present as strings and byte-equal
— is rejected (JavaScript falsiness treats empty as missing), refuting
"succeeds exactly when both are present and byte-equal". -/
theorem C7_counterexample :
    FormData.get ⟨[("csrf_token", .str "")]⟩ "csrf_token" = some (.str "") ∧
    cookieValue "__Host-CSRF_TOKEN=" "__Host-CSRF_TOKEN" = some "" ∧
    validateCSRFToken ⟨[("csrf_token", .str "")]⟩ ⟨none, some "__Host-CSRF_TOKEN="⟩ =
      .error ⟨"invalid_request", "Missing CSRF token in form data", 400⟩ :=
  ⟨rfl, rfl, rfl⟩

/-- C7 (corrected), amended: validation succeeds exactly when the form
holds a non-empty string token and the CSRF cookie is present with a
(necessarily non-empty) equal value; on success the result clears the
cookie via `Max-Age=0`. -/
theorem C7_theorem (formData : FormData) (request : Request) :
    ((∃ res, validateCSRFToken formData request = .ok res) ↔
      ∃ s, s ≠ "" ∧ formData.get "csrf_token" = some (.str s) ∧
        cookieValue (request.cookieHeader.getD "") "__Host-CSRF_TOKEN" = some s) ∧
    (∀ res, validateCSRFToken formData request = .ok res →
      res.clearCookie = "__Host-CSRF_TOKEN=; HttpOnly; Secure; Path=/; SameSite=Lax; Max-Age=0") := by
  constructor
  · constructor
    · rintro ⟨res, h⟩
      unfold validateCSRFToken at h
      repeat' split at h
      all_goals simp_all
    · rintro ⟨s, hs, hget, hcv⟩
      unfold validateCSRFToken
      rw [hget]
      simp only [hs, ite_false]
      rw [hcv]
      simp [hs]
  · intro res h
    unfold validateCSRFToken at h
    repeat' split at h
    all_goals simp_all
    rw [← h]

/-- Witness for `C7_theorem`: a matching token/cookie pair validates. -/
theorem C7_witness :
    ∃ res, validateCSRFToken ⟨[("csrf_token", .str "T1")]⟩
      ⟨none, some "__Host-CSRF_TOKEN=T1"⟩ = .ok res :=
  (C7_theorem ⟨[("csrf_token", .str "T1")]⟩ ⟨none, some "__Host-CSRF_TOKEN=T1"⟩).1.mpr
    ⟨"T1", by decide, rfl, rfl⟩

/-- C9 (corrected), counterexample: a malformed signature containing the
non-hex character `z` still verifies as `true`: `parseInt(_, 16)` reads the
maximal hex prefix of each two-character chunk, so the chunk `8z` decodes
to the correct byte `0x08`.  This refutes "every input containing non-hex
characters yields false". -/
theorem C9_counterexample :
    signData "d" "k" =
      "e7ea21c3bcb63a4da3ad78503168d36bdca0be622382ea60a108fad4e4966679" ∧
    'z' ∈ "e7ea21c3bcb63a4da3ad78503168d36bdca0be622382ea60a18zfad4e4966679".data ∧
    verifySignature "e7ea21c3bcb63a4da3ad78503168d36bdca0be622382ea60a18zfad4e4966679"
      "d" "k" = true := by
  exact ⟨rfl, by decide, rfl⟩

/-- C9 (corrected), amended: no exception escapes `verifySignature` — the
empty string (whose regex match is `null`) returns `false` — and any
signature whose lenient decoding differs from the MAC returns `false`;
but malformed inputs whose lenient decoding happens to equal the MAC
return `true` (see the counterexample). -/
theorem C9_theorem :
    (∀ d k : String, verifySignature "" d k = false) ∧
    (∀ sig d k : String, sigDecodedBytes sig ≠ hmacSha256 k d →
      verifySignature sig d k = false) := by
  refine ⟨fun d k => rfl, ?_⟩
  intro sig d k hne
  unfold verifySignature
  by_cases he : (reChunks12 sig.data).isEmpty
  · rw [he]
    simp
  · rw [Bool.not_eq_true] at he
    rw [he]
    simp only [Bool.false_eq_true, ite_false]
    exact beq_eq_false_iff_ne.mpr hne

/-- Witness for `C9_theorem` at a concrete malformed signature. -/
theorem C9_witness : verifySignature "zz" "d" "k" = false :=
  C9_theorem.2 "zz" "d" "k" (by decide)

/-- C3 (confirmed): when `validateOAuthState` succeeds for token `t`, the
returned store no longer holds `oauth:state:t`, and running the same
request against that store fails with the `invalid_request` "Invalid or
expired state" error: a consumed token never validates again. -/
theorem C3_theorem (req : Request) (kv : KV) (r : ValidateStateResult) (kv2 : KV)
    (t : String) (hq : req.stateQuery = some t)
    (h : validateOAuthState req kv = (.ok r, kv2)) :
    kvGet kv2 ("oauth:state:" ++ t) = none ∧
    validateOAuthState req kv2 =
      (.error ⟨"invalid_request", "Invalid or expired state", 400⟩, kv2) := by
  unfold validateOAuthState at h
  rw [hq] at h
  simp only at h
  split at h
  · simp at h
  · split at h
    · simp at h
    · split at h
      · simp at h
      · split at h
        · simp at h
        · split at h
          · simp at h
          · split at h
            · simp at h
            · split at h
              · simp at h
              · have hT : ¬t = "" := by assumption
                have hkv2 : kv2 = kvDelete kv ("oauth:state:" ++ t) := by
                  have h2 := congrArg Prod.snd h
                  simpa using h2.symm
                subst hkv2
                refine ⟨kvGet_kvDelete kv _, ?_⟩
                unfold validateOAuthState
                rw [hq]
                simp only
                rw [if_neg hT, kvGet_kvDelete]

/-- Witness for `C3_theorem`: a concrete successful validation, its
deletion of the record, and the failing replay. -/
theorem C3_witness :
    kvGet (kvDelete [("oauth:state:t1", "1")] ("oauth:state:" ++ "t1")) ("oauth:state:" ++ "t1")
      = none ∧
    validateOAuthState ⟨some "t1", some (bindStateToSession "t1").setCookie⟩
        (kvDelete [("oauth:state:t1", "1")] ("oauth:state:" ++ "t1")) =
      (.error ⟨"invalid_request", "Invalid or expired state", 400⟩,
        kvDelete [("oauth:state:t1", "1")] ("oauth:state:" ++ "t1")) := by
  have h := C3_theorem ⟨some "t1", some (bindStateToSession "t1").setCookie⟩
    [("oauth:state:t1", "1")]
    ⟨.num "1", "__Host-CONSENTED_STATE=; HttpOnly; Secure; Path=/; SameSite=Lax; Max-Age=0"⟩
    (kvDelete [("oauth:state:t1", "1")] ("oauth:state:" ++ "t1")) "t1" rfl rfl
  exact h

/-- C4 (confirmed): with a live state record, presenting `state=t` together
with the cookie emitted by `bindStateToSession t` passes the session
binding (the outcome is decided purely by the payload parse); the cookie
from `bindStateToSession t'` with a differing digest fails with the
mismatch error; an absent cookie fails with the distinct missing-binding
error. -/
theorem C4_theorem :
    (∀ (t storedDataJson : String) (kv : KV),
      t ≠ "" → storedDataJson ≠ "" →
      kvGet kv ("oauth:state:" ++ t) = some storedDataJson →
      validateOAuthState ⟨some t, some (bindStateToSession t).setCookie⟩ kv =
        (match jsonParse storedDataJson with
         | some j => (.ok ⟨j, "__Host-CONSENTED_STATE=; HttpOnly; Secure; Path=/; SameSite=Lax; Max-Age=0"⟩,
             kvDelete kv ("oauth:state:" ++ t))
         | none => (.error ⟨"server_error", "Invalid state data", 500⟩, kv))) ∧
    (∀ (t t' storedDataJson : String) (kv : KV),
      t ≠ "" → storedDataJson ≠ "" →
      kvGet kv ("oauth:state:" ++ t) = some storedDataJson →
      sha256Hex t ≠ sha256Hex t' →
      validateOAuthState ⟨some t, some (bindStateToSession t').setCookie⟩ kv =
        (.error ⟨"invalid_request",
          "State token does not match session - possible CSRF attack detected", 400⟩, kv)) ∧
    (∀ (t storedDataJson : String) (kv : KV),
      t ≠ "" → storedDataJson ≠ "" →
      kvGet kv ("oauth:state:" ++ t) = some storedDataJson →
      validateOAuthState ⟨some t, none⟩ kv =
        (.error ⟨"invalid_request",
          "Missing session binding cookie - authorization flow must be restarted", 400⟩, kv)) ∧
    (⟨"invalid_request",
        "Missing session binding cookie - authorization flow must be restarted", 400⟩ : OAuthError) ≠
      ⟨"invalid_request",
        "State token does not match session - possible CSRF attack detected", 400⟩ := by
  refine ⟨?_, ?_, ?_, by decide⟩
  · intro t sdj kv ht hsdj hkv
    unfold validateOAuthState
    simp only
    rw [if_neg ht, hkv]
    simp only
    rw [if_neg hsdj]
    show (match cookieValue (bindStateToSession t).setCookie "__Host-CONSENTED_STATE" with
      | none => _ | some consentedStateHash => _) = _
    rw [cookieValue_bindCookie]
    simp only
    rw [if_neg (sha256Hex_ne_empty t)]
    rw [if_neg (fun hne => hne rfl)]
    cases jsonParse sdj <;> rfl
  · intro t t' sdj kv ht hsdj hkv hne
    unfold validateOAuthState
    simp only
    rw [if_neg ht, hkv]
    simp only
    rw [if_neg hsdj]
    show (match cookieValue (bindStateToSession t').setCookie "__Host-CONSENTED_STATE" with
      | none => _ | some consentedStateHash => _) = _
    rw [cookieValue_bindCookie]
    simp only
    rw [if_neg (sha256Hex_ne_empty t')]
    rw [if_pos hne]
  · intro t sdj kv ht hsdj hkv
    unfold validateOAuthState
    simp only
    rw [if_neg ht, hkv]
    simp only
    rw [if_neg hsdj]
    rfl

/-- Witness for `C4_theorem` at concrete tokens with differing digests. -/
theorem C4_witness :
    validateOAuthState ⟨some "t1", some (bindStateToSession "t1").setCookie⟩
        [("oauth:state:t1", "1")] =
      (match jsonParse "1" with
       | some j => (.ok ⟨j, "__Host-CONSENTED_STATE=; HttpOnly; Secure; Path=/; SameSite=Lax; Max-Age=0"⟩,
           kvDelete [("oauth:state:t1", "1")] ("oauth:state:" ++ "t1"))
       | none => (.error ⟨"server_error", "Invalid state data", 500⟩, [("oauth:state:t1", "1")])) ∧
    validateOAuthState ⟨some "t1", some (bindStateToSession "t2").setCookie⟩
        [("oauth:state:t1", "1")] =
      (.error ⟨"invalid_request",
        "State token does not match session - possible CSRF attack detected", 400⟩,
        [("oauth:state:t1", "1")]) ∧
    validateOAuthState ⟨some "t1", none⟩ [("oauth:state:t1", "1")] =
      (.error ⟨"invalid_request",
        "Missing session binding cookie - authorization flow must be restarted", 400⟩,
        [("oauth:state:t1", "1")]) :=
  ⟨C4_theorem.1 "t1" "1" _ (by decide) (by decide) rfl,
   C4_theorem.2.1 "t1" "t2" "1" _ (by decide) (by decide) rfl (by decide),
   C4_theorem.2.2.1 "t1" "1" _ (by decide) (by decide) rfl⟩

/-- C10 (confirmed): every failing run of `validateOAuthState` leaves the
store exactly as it was (no deletion) and yields no clear-cookie
directive; only the fully successful run deletes the record and returns
the clearing directive; and a corrupt stored payload in particular yields
the 500 `server_error` with the record still present. -/
theorem C10_theorem :
    (∀ (req : Request) (kv : KV) (e : OAuthError) (kv2 : KV),
      validateOAuthState req kv = (.error e, kv2) → kv2 = kv) ∧
    (∀ (req : Request) (kv : KV) (r : ValidateStateResult) (kv2 : KV) (t : String),
      req.stateQuery = some t →
      validateOAuthState req kv = (.ok r, kv2) →
      kv2 = kvDelete kv ("oauth:state:" ++ t) ∧
        r.clearCookie =
          "__Host-CONSENTED_STATE=; HttpOnly; Secure; Path=/; SameSite=Lax; Max-Age=0") ∧
    (∀ (t storedDataJson : String) (kv : KV),
      t ≠ "" → storedDataJson ≠ "" →
      kvGet kv ("oauth:state:" ++ t) = some storedDataJson →
      jsonParse storedDataJson = none →
      validateOAuthState ⟨some t, some (bindStateToSession t).setCookie⟩ kv =
        (.error ⟨"server_error", "Invalid state data", 500⟩, kv)) := by
  refine ⟨?_, ?_, ?_⟩
  · intro req kv e kv2 h
    unfold validateOAuthState at h
    repeat' split at h
    all_goals simp_all
  · intro req kv r kv2 t hq h
    unfold validateOAuthState at h
    rw [hq] at h
    simp only at h
    repeat' split at h
    all_goals simp_all
    obtain ⟨hr, -⟩ := h
    rw [← hr]
  · intro t sdj kv ht hsdj hkv hparse
    unfold validateOAuthState
    simp only
    rw [if_neg ht, hkv]
    simp only
    rw [if_neg hsdj]
    show (match cookieValue (bindStateToSession t).setCookie "__Host-CONSENTED_STATE" with
      | none => _ | some consentedStateHash => _) = _
    rw [cookieValue_bindCookie]
    simp only
    rw [if_neg (sha256Hex_ne_empty t)]
    rw [if_neg (fun hne => hne rfl), hparse]

/-- Witness for `C10_theorem`: concrete failing and corrupt-payload runs. -/
theorem C10_witness :
    ([("oauth:state:t1", "x")] : KV) = [("oauth:state:t1", "x")] ∧
    validateOAuthState ⟨some "t1", some (bindStateToSession "t1").setCookie⟩
        [("oauth:state:t1", "not json")] =
      (.error ⟨"server_error", "Invalid state data", 500⟩, [("oauth:state:t1", "not json")]) :=
  ⟨C10_theorem.1 ⟨none, none⟩ [("oauth:state:t1", "x")]
      ⟨"invalid_request", "Missing state parameter", 400⟩ [("oauth:state:t1", "x")] rfl,
   C10_theorem.2.2 "t1" "not json" [("oauth:state:t1", "not json")]
      (by decide) (by decide) rfl rfl⟩

/-! ## Lemmas: set semantics of `Array.from(new Set(_))` -/

lemma strContains_iff (l : List String) (x : String) : l.contains x = true ↔ x ∈ l :=
  List.elem_iff

lemma jsSetFrom_step_mem (acc : List String) (x y : String) :
    (y ∈ if acc.contains x then acc else acc ++ [x]) ↔ y ∈ acc ∨ y = x := by
  by_cases h : acc.contains x
  · rw [if_pos h]
    constructor
    · exact Or.inl
    · rintro (hy | rfl)
      · exact hy
      · exact (strContains_iff acc _).mp h
  · rw [if_neg h]
    simp

lemma jsSetFrom_foldl_mem (l : List String) (acc : List String) (y : String) :
    (y ∈ l.foldl (fun acc x => if acc.contains x then acc else acc ++ [x]) acc) ↔
      y ∈ acc ∨ y ∈ l := by
  induction l generalizing acc with
  | nil => simp
  | cons x xs ih =>
    rw [List.foldl_cons, ih, jsSetFrom_step_mem]
    constructor
    · rintro ((hy | rfl) | hy)
      · exact Or.inl hy
      · exact Or.inr (List.mem_cons_self _ _)
      · exact Or.inr (List.mem_cons_of_mem _ hy)
    · rintro (hy | hy)
      · exact Or.inl (Or.inl hy)
      · rcases List.mem_cons.mp hy with rfl | hy
        · exact Or.inl (Or.inr rfl)
        · exact Or.inr hy

lemma jsSetFrom_foldl_nodup (l : List String) (acc : List String) (hacc : acc.Nodup) :
    (l.foldl (fun acc x => if acc.contains x then acc else acc ++ [x]) acc).Nodup := by
  induction l generalizing acc with
  | nil => exact hacc
  | cons x xs ih =>
    rw [List.foldl_cons]
    apply ih
    by_cases h : acc.contains x
    · rw [if_pos h]; exact hacc
    · rw [if_neg h]
      rw [← List.concat_eq_append]
      refine List.Nodup.concat ?_ hacc
      intro hmem
      exact h ((strContains_iff acc x).mpr hmem)

lemma jsSetFrom_foldl_of_nodup (l : List String) (acc : List String)
    (h : (acc ++ l).Nodup) :
    l.foldl (fun acc x => if acc.contains x then acc else acc ++ [x]) acc = acc ++ l := by
  induction l generalizing acc with
  | nil => simp
  | cons x xs ih =>
    rw [List.foldl_cons]
    have hx : ¬acc.contains x := by
      intro hc
      have hmem : x ∈ acc := (strContains_iff acc x).mp hc
      rw [List.nodup_append] at h
      exact h.2.2 hmem (List.mem_cons_self _ _)
    rw [if_neg hx]
    have : (acc ++ [x]) ++ xs = acc ++ x :: xs := by simp
    rw [ih (acc ++ [x]) (by rw [this]; exact h)]
    simp

lemma jsSetFrom_mem (l : List String) (y : String) : y ∈ jsSetFrom l ↔ y ∈ l := by
  unfold jsSetFrom
  rw [jsSetFrom_foldl_mem]
  simp

lemma jsSetFrom_nodup (l : List String) : (jsSetFrom l).Nodup :=
  jsSetFrom_foldl_nodup l [] List.nodup_nil

lemma jsSetFrom_append_one (l : List String) (y : String) :
    jsSetFrom (l ++ [y]) =
      (if (jsSetFrom l).contains y then jsSetFrom l else jsSetFrom l ++ [y]) := by
  unfold jsSetFrom
  rw [List.foldl_append]
  rfl

lemma jsSetFrom_idem_append (l : List String) (y : String) (hy : y ∈ l) (hn : l.Nodup) :
    jsSetFrom (l ++ [y]) = l := by
  rw [jsSetFrom_append_one]
  have hl : jsSetFrom l = l := by
    have := jsSetFrom_foldl_of_nodup l [] (by simpa using hn)
    simpa [jsSetFrom] using this
  rw [hl, if_pos ((strContains_iff l y).mpr hy)]

/-! ## Lemmas: base64 round trip -/

lemma b64Char_mem (n : Nat) : b64Char n ∈ b64Alphabet := by
  unfold b64Char
  by_cases h : n < b64Alphabet.length
  · rw [List.getD_eq_getElem _ _ h]
    exact List.getElem_mem h
  · rw [List.getD_eq_default _ _ (by omega)]
    decide

lemma b64Alphabet_facts : ∀ c ∈ b64Alphabet,
    c ≠ '=' ∧ b64Ws c = false ∧ c ≠ ';' ∧ c ≠ '.' ∧ jsWs c = false ∧ c.toNat < 256 := by
  decide

lemma mem_b64EncodeBytes : ∀ (bs : List Nat), ∀ c ∈ b64EncodeBytes bs,
    c ∈ b64Alphabet ∨ c = '='
  | [] => by simp [b64EncodeBytes]
  | [a] => by
    intro c hc
    simp only [b64EncodeBytes, List.mem_cons, List.not_mem_nil, or_false] at hc
    rcases hc with rfl | rfl | rfl | rfl
    · exact Or.inl (b64Char_mem _)
    · exact Or.inl (b64Char_mem _)
    · exact Or.inr rfl
    · exact Or.inr rfl
  | [a, b] => by
    intro c hc
    simp only [b64EncodeBytes, List.mem_cons, List.not_mem_nil, or_false] at hc
    rcases hc with rfl | rfl | rfl | rfl
    · exact Or.inl (b64Char_mem _)
    · exact Or.inl (b64Char_mem _)
    · exact Or.inl (b64Char_mem _)
    · exact Or.inr rfl
  | a :: b :: c' :: rest => by
    intro c hc
    simp only [b64EncodeBytes, List.mem_cons] at hc
    rcases hc with rfl | rfl | rfl | rfl | hc
    · exact Or.inl (b64Char_mem _)
    · exact Or.inl (b64Char_mem _)
    · exact Or.inl (b64Char_mem _)
    · exact Or.inl (b64Char_mem _)
    · exact mem_b64EncodeBytes rest c hc

lemma b64EncodeBytes_length_mod4 : ∀ (bs : List Nat), (b64EncodeBytes bs).length % 4 = 0
  | [] => rfl
  | [_] => by simp [b64EncodeBytes]
  | [_, _] => by simp [b64EncodeBytes]
  | a :: b :: c :: rest => by
    have ih := b64EncodeBytes_length_mod4 rest
    simp only [b64EncodeBytes, List.length_cons]
    omega

lemma b64IndexNat_b64Char {n : Nat} (h : n < 64) : b64IndexNat (b64Char n) = some n := by
  interval_cases n <;> rfl

lemma b64EncodeBytes_two_le : ∀ (bs : List Nat), bs ≠ [] → 2 ≤ (b64EncodeBytes bs).length
  | [], h => absurd rfl h
  | [_], _ => by simp [b64EncodeBytes]
  | [_, _], _ => by simp [b64EncodeBytes]
  | _ :: _ :: _ :: rest, _ => by simp only [b64EncodeBytes, List.length_cons]; omega

lemma b64StripPad_append (g t : List Char) (ht : 2 ≤ t.length) :
    b64StripPad (g ++ t) = g ++ b64StripPad t := by
  obtain ⟨y, x, rt, hrev⟩ : ∃ y x rt, t.reverse = y :: x :: rt := by
    have hl : 2 ≤ t.reverse.length := by simpa using ht
    cases hr : t.reverse with
    | nil => rw [hr] at hl; simp at hl
    | cons y r1 =>
      cases hr1 : r1 with
      | nil => rw [hr, hr1] at hl; simp at hl
      | cons x rt => exact ⟨y, x, rt, rfl⟩
  have hgt : (g ++ t).reverse = y :: x :: (rt ++ g.reverse) := by
    rw [List.reverse_append, hrev]; simp
  unfold b64StripPad
  rw [hgt, hrev]
  by_cases hy : y = '='
  · subst hy
    rw [show stripEq1 ('=' :: x :: (rt ++ g.reverse)) = x :: (rt ++ g.reverse) from by
      simp [stripEq1]]
    rw [show stripEq1 ('=' :: x :: rt) = x :: rt from by simp [stripEq1]]
    by_cases hx : x = '='
    · subst hx
      rw [show stripEq1 ('=' :: (rt ++ g.reverse)) = rt ++ g.reverse from by simp [stripEq1]]
      rw [show stripEq1 ('=' :: rt) = rt from by simp [stripEq1]]
      simp
    · rw [show stripEq1 (x :: (rt ++ g.reverse)) = x :: (rt ++ g.reverse) from by
        simp [stripEq1, hx]]
      rw [show stripEq1 (x :: rt) = x :: rt from by simp [stripEq1, hx]]
      simp
  · rw [show stripEq1 (y :: x :: (rt ++ g.reverse)) = y :: x :: (rt ++ g.reverse) from by
      simp [stripEq1, hy]]
    rw [show stripEq1 (y :: x :: (rt ++ g.reverse)) = y :: x :: (rt ++ g.reverse) from by
      simp [stripEq1, hy]]
    rw [show stripEq1 (y :: x :: rt) = y :: x :: rt from by simp [stripEq1, hy]]
    rw [show stripEq1 (y :: x :: rt) = y :: x :: rt from by simp [stripEq1, hy]]
    simp

lemma b64Char_ne_eq (n : Nat) : b64Char n ≠ '=' :=
  (b64Alphabet_facts _ (b64Char_mem n)).1

lemma b64StripPad_encode : ∀ (bs : List Nat), b64StripPad (b64EncodeBytes bs) = b64Core bs
  | [] => rfl
  | [a] => by
    show b64StripPad [b64Char (a / 4), b64Char (a % 4 * 16), '=', '='] = _
    unfold b64StripPad
    rw [show ([b64Char (a / 4), b64Char (a % 4 * 16), '=', '='] : List Char).reverse =
      ['=', '=', b64Char (a % 4 * 16), b64Char (a / 4)] from by simp]
    rw [show stripEq1 ['=', '=', b64Char (a % 4 * 16), b64Char (a / 4)] =
      ['=', b64Char (a % 4 * 16), b64Char (a / 4)] from by simp [stripEq1]]
    rw [show stripEq1 ['=', b64Char (a % 4 * 16), b64Char (a / 4)] =
      [b64Char (a % 4 * 16), b64Char (a / 4)] from by simp [stripEq1]]
    simp [b64Core]
  | [a, b] => by
    show b64StripPad [b64Char (a / 4), b64Char (a % 4 * 16 + b / 16), b64Char (b % 16 * 4), '='] = _
    unfold b64StripPad
    rw [show ([b64Char (a / 4), b64Char (a % 4 * 16 + b / 16), b64Char (b % 16 * 4), '='] :
      List Char).reverse =
      ['=', b64Char (b % 16 * 4), b64Char (a % 4 * 16 + b / 16), b64Char (a / 4)] from by simp]
    rw [show stripEq1 ['=', b64Char (b % 16 * 4), b64Char (a % 4 * 16 + b / 16), b64Char (a / 4)] =
      [b64Char (b % 16 * 4), b64Char (a % 4 * 16 + b / 16), b64Char (a / 4)] from by
        simp [stripEq1]]
    rw [show stripEq1 [b64Char (b % 16 * 4), b64Char (a % 4 * 16 + b / 16), b64Char (a / 4)] =
      [b64Char (b % 16 * 4), b64Char (a % 4 * 16 + b / 16), b64Char (a / 4)] from by
        simp [stripEq1, b64Char_ne_eq]]
    simp [b64Core]
  | a :: b :: c :: rest => by
    cases hr : rest with
    | nil =>
      show b64StripPad [b64Char (a / 4), b64Char (a % 4 * 16 + b / 16),
        b64Char (b % 16 * 4 + c / 64), b64Char (c % 64)] = _
      unfold b64StripPad
      rw [show ([b64Char (a / 4), b64Char (a % 4 * 16 + b / 16), b64Char (b % 16 * 4 + c / 64),
        b64Char (c % 64)] : List Char).reverse =
        [b64Char (c % 64), b64Char (b % 16 * 4 + c / 64), b64Char (a % 4 * 16 + b / 16),
          b64Char (a / 4)] from by simp]
      rw [show stripEq1 [b64Char (c % 64), b64Char (b % 16 * 4 + c / 64),
        b64Char (a % 4 * 16 + b / 16), b64Char (a / 4)] =
        [b64Char (c % 64), b64Char (b % 16 * 4 + c / 64), b64Char (a % 4 * 16 + b / 16),
          b64Char (a / 4)] from by simp [stripEq1, b64Char_ne_eq]]
      rw [show stripEq1 [b64Char (c % 64), b64Char (b % 16 * 4 + c / 64),
        b64Char (a % 4 * 16 + b / 16), b64Char (a / 4)] =
        [b64Char (c % 64), b64Char (b % 16 * 4 + c / 64), b64Char (a % 4 * 16 + b / 16),
          b64Char (a / 4)] from by simp [stripEq1, b64Char_ne_eq]]
      simp [b64Core]
    | cons r rs =>
      have ih := b64StripPad_encode (r :: rs)
      have henc : b64EncodeBytes (a :: b :: c :: r :: rs) =
          [b64Char (a / 4), b64Char (a % 4 * 16 + b / 16), b64Char (b % 16 * 4 + c / 64),
            b64Char (c % 64)] ++ b64EncodeBytes (r :: rs) := rfl
      rw [henc, b64StripPad_append _ _ (b64EncodeBytes_two_le _ (by simp)), ih]
      simp [b64Core]

lemma b64Core_length_mod4 : ∀ (bs : List Nat), (b64Core bs).length % 4 ≠ 1
  | [] => by simp [b64Core]
  | [_] => by simp [b64Core]
  | [_, _] => by simp [b64Core]
  | _ :: _ :: _ :: rest => by
    have ih := b64Core_length_mod4 rest
    simp only [b64Core, List.length_cons]
    omega

lemma b64Core_decode : ∀ (bs : List Nat), (∀ b ∈ bs, b < 256) →
    ∃ vals, b64IndexAll (b64Core bs) = some vals ∧ b64DecodeVals vals = bs
  | [], _ => ⟨[], rfl, rfl⟩
  | [a], h => by
    have ha : a < 256 := h a (by simp)
    refine ⟨[a / 4, a % 4 * 16], ?_, ?_⟩
    · show b64IndexAll [b64Char (a / 4), b64Char (a % 4 * 16)] = _
      simp [b64IndexAll, b64IndexNat_b64Char (show a / 4 < 64 by omega),
        b64IndexNat_b64Char (show a % 4 * 16 < 64 by omega)]
    · show b64DecodeVals [a / 4, a % 4 * 16] = [a]
      simp [b64DecodeVals]
      omega
  | [a, b], h => by
    have ha : a < 256 := h a (by simp)
    have hb : b < 256 := h b (by simp)
    refine ⟨[a / 4, a % 4 * 16 + b / 16, b % 16 * 4], ?_, ?_⟩
    · show b64IndexAll [b64Char (a / 4), b64Char (a % 4 * 16 + b / 16), b64Char (b % 16 * 4)] = _
      simp [b64IndexAll, b64IndexNat_b64Char (show a / 4 < 64 by omega),
        b64IndexNat_b64Char (show a % 4 * 16 + b / 16 < 64 by omega),
        b64IndexNat_b64Char (show b % 16 * 4 < 64 by omega)]
    · show b64DecodeVals [a / 4, a % 4 * 16 + b / 16, b % 16 * 4] = [a, b]
      simp [b64DecodeVals]
      constructor <;> omega
  | a :: b :: c :: rest, h => by
    have ha : a < 256 := h a (by simp)
    have hb : b < 256 := h b (by simp)
    have hc : c < 256 := h c (by simp)
    obtain ⟨vals, hidx, hdec⟩ := b64Core_decode rest (fun x hx => h x (by simp [hx]))
    refine ⟨a / 4 :: (a % 4 * 16 + b / 16) :: (b % 16 * 4 + c / 64) :: c % 64 :: vals, ?_, ?_⟩
    · show b64IndexAll (b64Char (a / 4) :: b64Char (a % 4 * 16 + b / 16) ::
        b64Char (b % 16 * 4 + c / 64) :: b64Char (c % 64) :: b64Core rest) = _
      simp [b64IndexAll, hidx, b64IndexNat_b64Char (show a / 4 < 64 by omega),
        b64IndexNat_b64Char (show a % 4 * 16 + b / 16 < 64 by omega),
        b64IndexNat_b64Char (show b % 16 * 4 + c / 64 < 64 by omega),
        b64IndexNat_b64Char (show c % 64 < 64 by omega)]
    · show b64DecodeVals (a / 4 :: (a % 4 * 16 + b / 16) :: (b % 16 * 4 + c / 64) ::
        c % 64 :: vals) = a :: b :: c :: rest
      rw [show b64DecodeVals (a / 4 :: (a % 4 * 16 + b / 16) :: (b % 16 * 4 + c / 64) ::
        c % 64 :: vals) =
        (a / 4 * 4 + (a % 4 * 16 + b / 16) / 16) ::
          ((a % 4 * 16 + b / 16) % 16 * 16 + (b % 16 * 4 + c / 64) / 4) ::
          ((b % 16 * 4 + c / 64) % 4 * 64 + c % 64) :: b64DecodeVals vals from rfl]
      rw [hdec]
      have e1 : a / 4 * 4 + (a % 4 * 16 + b / 16) / 16 = a := by omega
      have e2 : (a % 4 * 16 + b / 16) % 16 * 16 + (b % 16 * 4 + c / 64) / 4 = b := by omega
      have e3 : (b % 16 * 4 + c / 64) % 4 * 64 + c % 64 = c := by omega
      rw [e1, e2, e3]

/-- Round trip of `atob` after `btoa` on a Latin-1 string. -/
lemma atob_btoa {s : String} (h : ∀ c ∈ s.data, c.toNat < 256) :
    btoa s = some ⟨b64EncodeBytes (s.data.map Char.toNat)⟩ ∧
    atob ⟨b64EncodeBytes (s.data.map Char.toNat)⟩ = some s := by
  have hall : s.data.all (fun c => decide (c.toNat < 256)) = true := by
    rw [List.all_eq_true]
    intro c hc
    simpa using h c hc
  have hbl : ∀ b ∈ s.data.map Char.toNat, b < 256 := by
    intro b hb
    obtain ⟨c, hc, rfl⟩ := List.mem_map.mp hb
    exact h c hc
  constructor
  · unfold btoa
    rw [if_pos hall]
  · unfold atob
    have hfilter : ((⟨b64EncodeBytes (s.data.map Char.toNat)⟩ : String).data).filter
        (fun c => !b64Ws c) = b64EncodeBytes (s.data.map Char.toNat) := by
      apply List.filter_eq_self.mpr
      intro c hc
      rcases mem_b64EncodeBytes _ c hc with hm | rfl
      · simp [(b64Alphabet_facts c hm).2.1]
      · decide
    rw [hfilter]
    rw [if_pos (b64EncodeBytes_length_mod4 _)]
    rw [b64StripPad_encode]
    unfold atobDecode
    rw [if_neg (b64Core_length_mod4 _)]
    obtain ⟨vals, hidx, hdec⟩ := b64Core_decode _ hbl
    rw [hidx]
    simp only [hdec]
    congr 1
    apply String.ext
    show (s.data.map Char.toNat).map Char.ofNat = s.data
    rw [List.map_map]
    have : ∀ c ∈ s.data, (Char.ofNat ∘ Char.toNat) c = c := by
      intro c _
      exact Char.ofNat_toNat c
    rw [List.map_congr_left this]
    simp

/-! ## Lemmas: JSON string-array round trip -/

lemma lexStrAux_escape : ∀ (cs : List Char) (acc rest : List Char),
    lexStrAux (cs.flatMap jsonEscapeChar ++ '"' :: rest) acc = some (acc.reverse ++ cs, rest)
  | [], acc, rest => by
    show lexStrAux ('"' :: rest) acc = _
    rw [lexStrAux.eq_def]
    simp
  | c :: cs, acc, rest => by
    have ih := lexStrAux_escape cs
    rw [List.flatMap_cons]
    by_cases h1 : c = '"'
    · subst h1
      rw [show jsonEscapeChar '"' = ['\\', '"'] from rfl]
      rw [show (['\\', '"'] ++ cs.flatMap jsonEscapeChar) ++ '"' :: rest =
        '\\' :: '"' :: (cs.flatMap jsonEscapeChar ++ '"' :: rest) from by simp]
      rw [lexStrAux.eq_def]
      simp only [reduceIte, reduceCtorEq]
      exact (ih _ _).trans (by simp)
    by_cases h2 : c = '\\'
    · subst h2
      rw [show jsonEscapeChar '\\' = ['\\', '\\'] from rfl]
      rw [show (['\\', '\\'] ++ cs.flatMap jsonEscapeChar) ++ '"' :: rest =
        '\\' :: '\\' :: (cs.flatMap jsonEscapeChar ++ '"' :: rest) from by simp]
      rw [lexStrAux.eq_def]
      simp only [reduceIte]
      exact (ih _ _).trans (by simp)
    by_cases h3 : c.toNat = 8
    · have hc : c = Char.ofNat 8 := by rw [← Char.ofNat_toNat c, h3]
      subst hc
      rw [show jsonEscapeChar (Char.ofNat 8) = ['\\', 'b'] from rfl]
      rw [show (['\\', 'b'] ++ cs.flatMap jsonEscapeChar) ++ '"' :: rest =
        '\\' :: 'b' :: (cs.flatMap jsonEscapeChar ++ '"' :: rest) from by simp]
      rw [lexStrAux.eq_def]
      simp only [reduceIte]
      exact (ih _ _).trans (by simp)
    by_cases h4 : c = '\t'
    · subst h4
      rw [show jsonEscapeChar '\t' = ['\\', 't'] from rfl]
      rw [show (['\\', 't'] ++ cs.flatMap jsonEscapeChar) ++ '"' :: rest =
        '\\' :: 't' :: (cs.flatMap jsonEscapeChar ++ '"' :: rest) from by simp]
      rw [lexStrAux.eq_def]
      simp only [reduceIte]
      exact (ih _ _).trans (by simp)
    by_cases h5 : c = '\n'
    · subst h5
      rw [show jsonEscapeChar '\n' = ['\\', 'n'] from rfl]
      rw [show (['\\', 'n'] ++ cs.flatMap jsonEscapeChar) ++ '"' :: rest =
        '\\' :: 'n' :: (cs.flatMap jsonEscapeChar ++ '"' :: rest) from by simp]
      rw [lexStrAux.eq_def]
      simp only [reduceIte]
      exact (ih _ _).trans (by simp)
    by_cases h6 : c.toNat = 12
    · have hc : c = Char.ofNat 12 := by rw [← Char.ofNat_toNat c, h6]
      subst hc
      rw [show jsonEscapeChar (Char.ofNat 12) = ['\\', 'f'] from rfl]
      rw [show (['\\', 'f'] ++ cs.flatMap jsonEscapeChar) ++ '"' :: rest =
        '\\' :: 'f' :: (cs.flatMap jsonEscapeChar ++ '"' :: rest) from by simp]
      rw [lexStrAux.eq_def]
      simp only [reduceIte]
      exact (ih _ _).trans (by simp)
    by_cases h7 : c = '\r'
    · subst h7
      rw [show jsonEscapeChar '\r' = ['\\', 'r'] from rfl]
      rw [show (['\\', 'r'] ++ cs.flatMap jsonEscapeChar) ++ '"' :: rest =
        '\\' :: 'r' :: (cs.flatMap jsonEscapeChar ++ '"' :: rest) from by simp]
      rw [lexStrAux.eq_def]
      simp only [reduceIte]
      exact (ih _ _).trans (by simp)
    by_cases h8 : c.toNat < 32
    · have hesc : jsonEscapeChar c =
          ['\\', 'u', '0', '0', hexDigit (c.toNat / 16), hexDigit (c.toNat % 16)] := by
        unfold jsonEscapeChar
        rw [if_neg h1, if_neg h2, if_neg h3, if_neg h4, if_neg h5, if_neg h6, if_neg h7,
          if_pos h8]
      rw [hesc]
      have hd1 := hexDigit_facts (show c.toNat / 16 < 16 by omega)
      have hd2 := hexDigit_facts (show c.toNat % 16 < 16 by omega)
      rw [show (['\\', 'u', '0', '0', hexDigit (c.toNat / 16), hexDigit (c.toNat % 16)] ++
        cs.flatMap jsonEscapeChar) ++ '"' :: rest =
        '\\' :: 'u' :: '0' :: '0' :: hexDigit (c.toNat / 16) :: hexDigit (c.toNat % 16) ::
          (cs.flatMap jsonEscapeChar ++ '"' :: rest) from by simp]
      rw [lexStrAux.eq_def]
      simp only [reduceIte, hd1.1, hd2.1, Bool.and_true, Bool.and_self]
      rw [hexVal_hexDigit (show c.toNat / 16 < 16 by omega),
        hexVal_hexDigit (show c.toNat % 16 < 16 by omega)]
      rw [show hexVal '0' = 0 from rfl]
      have hcode : 0 * 4096 + 0 * 256 + c.toNat / 16 * 16 + c.toNat % 16 = c.toNat := by omega
      simp only [hcode]
      rw [show (decide (0xD800 ≤ c.toNat) && decide (c.toNat < 0xE000)) = false from by
        have : ¬(0xD800 ≤ c.toNat) := by omega
        simp [this]]
      simp only [Bool.false_eq_true, ite_false]
      rw [Char.ofNat_toNat]
      exact (ih _ _).trans (by simp)
    · have hesc : jsonEscapeChar c = [c] := by
        unfold jsonEscapeChar
        rw [if_neg h1, if_neg h2, if_neg h3, if_neg h4, if_neg h5, if_neg h6, if_neg h7,
          if_neg h8]
      rw [hesc]
      rw [show ([c] ++ cs.flatMap jsonEscapeChar) ++ '"' :: rest =
        c :: (cs.flatMap jsonEscapeChar ++ '"' :: rest) from by simp]
      rw [lexStrAux.eq_def]
      simp only []
      rw [if_neg h1, if_neg h2, if_neg h8]
      exact (ih _ _).trans (by simp)

lemma skipWs_cons_of_neg (c : Char) (r : List Char) (h : jsonWsCh c = false) :
    skipWs (c :: r) = c :: r := by
  unfold skipWs
  rw [List.dropWhile_cons, h]
  simp

lemma parseVal_succ_quote (f : Nat) (r : List Char) :
    parseVal (f + 1) ('"' :: r) = (lexStrAux r []).map (fun p => (Json.str ⟨p.1⟩, p.2)) := by
  rw [parseVal.eq_def]
  dsimp only
  rw [skipWs_cons_of_neg _ _ (by decide)]
  rfl

lemma parseVal_succ_lbrack (f : Nat) (r : List Char) :
    parseVal (f + 1) ('[' :: r) =
      (match skipWs r with
       | ']' :: r' => some (Json.arr [], r')
       | r' => parseArrElems f r' []) := by
  rw [parseVal.eq_def]
  dsimp only
  rw [skipWs_cons_of_neg _ _ (by decide)]
  rfl

lemma parseArrElems_succ (f : Nat) (cs : List Char) (acc : List Json) :
    parseArrElems (f + 1) cs acc =
      (match parseVal f cs with
       | none => none
       | some (v, r) =>
         match skipWs r with
         | ',' :: r' => parseArrElems f r' (v :: acc)
         | ']' :: r' => some (Json.arr (v :: acc).reverse, r')
         | _ => none) := by
  rw [parseArrElems.eq_def]

lemma parseArrElems_loop : ∀ (xs : List String) (x : String) (f : Nat) (acc : List Json)
    (rest : List Char), 2 * xs.length + 2 ≤ f →
    parseArrElems f (jsonQuote x ++ xs.flatMap (fun y => ',' :: jsonQuote y) ++ ']' :: rest) acc =
      some (Json.arr (acc.reverse ++ (x :: xs).map Json.str), rest) := by
  intro xs
  induction xs with
  | nil =>
    intro x f acc rest hf
    obtain ⟨f1, rfl⟩ : ∃ f1, f = f1 + 1 := ⟨f - 1, by omega⟩
    rw [parseArrElems_succ]
    obtain ⟨f2, rfl⟩ : ∃ f2, f1 = f2 + 1 := ⟨f1 - 1, by omega⟩
    have hinput : jsonQuote x ++ ([] : List String).flatMap (fun y => ',' :: jsonQuote y) ++
        ']' :: rest = '"' :: (x.data.flatMap jsonEscapeChar ++ '"' :: ']' :: rest) := by
      simp [jsonQuote]
    rw [hinput, parseVal_succ_quote, lexStrAux_escape]
    show (match skipWs (']' :: rest) with
      | ',' :: r' => parseArrElems (f2 + 1) r' (Json.str ⟨[].reverse ++ x.data⟩ :: acc)
      | ']' :: r' => some (Json.arr (Json.str ⟨[].reverse ++ x.data⟩ :: acc).reverse, r')
      | _ => none) = _
    rw [skipWs_cons_of_neg _ _ (by decide)]
    show some (Json.arr (Json.str ⟨[].reverse ++ x.data⟩ :: acc).reverse, rest) = _
    simp
  | cons y ys ih =>
    intro x f acc rest hf
    obtain ⟨f1, rfl⟩ : ∃ f1, f = f1 + 1 := ⟨f - 1, by omega⟩
    rw [parseArrElems_succ]
    obtain ⟨f2, rfl⟩ : ∃ f2, f1 = f2 + 1 := ⟨f1 - 1, by omega⟩
    have hinput : jsonQuote x ++ (y :: ys).flatMap (fun z => ',' :: jsonQuote z) ++
        ']' :: rest = '"' :: (x.data.flatMap jsonEscapeChar ++ '"' ::
          (',' :: (jsonQuote y ++ ys.flatMap (fun z => ',' :: jsonQuote z) ++ ']' :: rest))) := by
      simp [jsonQuote, List.flatMap_cons]
    rw [hinput, parseVal_succ_quote, lexStrAux_escape]
    show (match skipWs (',' :: (jsonQuote y ++ ys.flatMap (fun z => ',' :: jsonQuote z) ++
        ']' :: rest)) with
      | ',' :: r' => parseArrElems (f2 + 1) r' (Json.str ⟨[].reverse ++ x.data⟩ :: acc)
      | ']' :: r' => some (Json.arr (Json.str ⟨[].reverse ++ x.data⟩ :: acc).reverse, r')
      | _ => none) = _
    rw [skipWs_cons_of_neg _ _ (by decide)]
    show parseArrElems (f2 + 1) (jsonQuote y ++ ys.flatMap (fun z => ',' :: jsonQuote z) ++
      ']' :: rest) (Json.str ⟨[].reverse ++ x.data⟩ :: acc) = _
    rw [ih y (f2 + 1) _ rest (by simp at hf ⊢; omega)]
    show some (Json.arr ((Json.str ⟨x.data⟩ :: acc).reverse ++ (y :: ys).map Json.str), rest) = _
    simp

lemma joinComma_quote : ∀ (x : String) (xs : List String),
    joinComma ((x :: xs).map jsonQuote) =
      jsonQuote x ++ xs.flatMap (fun y => ',' :: jsonQuote y)
  | x, [] => by simp [joinComma]
  | x, y :: ys => by
    rw [show (x :: y :: ys).map jsonQuote = jsonQuote x :: (y :: ys).map jsonQuote from rfl]
    rw [show joinComma (jsonQuote x :: (y :: ys).map jsonQuote) =
      jsonQuote x ++ ',' :: joinComma ((y :: ys).map jsonQuote) from by
        rw [joinComma.eq_def]
        rfl]
    rw [joinComma_quote y ys]
    simp [List.flatMap_cons]

lemma flatMap_quote_length_ge (xs : List String) :
    xs.length ≤ (xs.flatMap (fun y => ',' :: jsonQuote y)).length := by
  induction xs with
  | nil => simp
  | cons y ys ih =>
    rw [List.flatMap_cons]
    simp only [List.length_append, List.length_cons]
    omega


lemma jsonParse_stringArray (l : List String) :
    jsonParse (stringifyStringArray l) = some (Json.arr (l.map Json.str)) := by
  cases l with
  | nil => rfl
  | cons x xs =>
    unfold jsonParse
    have hdata : (stringifyStringArray (x :: xs)).data =
        '[' :: (jsonQuote x ++ xs.flatMap (fun y => ',' :: jsonQuote y) ++ ']' :: []) := by
      show '[' :: joinComma ((x :: xs).map jsonQuote) ++ [']'] = _
      rw [joinComma_quote]
      simp
    rw [hdata]
    rw [show 2 * ('[' :: (jsonQuote x ++ xs.flatMap (fun y => ',' :: jsonQuote y) ++
      ']' :: [])).length + 2 =
      (2 * ('[' :: (jsonQuote x ++ xs.flatMap (fun y => ',' :: jsonQuote y) ++
        ']' :: [])).length + 1) + 1 from rfl]
    rw [parseVal_succ_lbrack]
    have hbody : jsonQuote x ++ xs.flatMap (fun y => ',' :: jsonQuote y) ++ ']' :: [] =
        '"' :: (x.data.flatMap jsonEscapeChar ++ '"' ::
          (xs.flatMap (fun y => ',' :: jsonQuote y) ++ ']' :: [])) := by
      simp [jsonQuote]
    rw [show skipWs (jsonQuote x ++ xs.flatMap (fun y => ',' :: jsonQuote y) ++ ']' :: []) =
        jsonQuote x ++ xs.flatMap (fun y => ',' :: jsonQuote y) ++ ']' :: [] from by
      rw [hbody]
      exact skipWs_cons_of_neg _ _ (by decide)]
    rw [show (match jsonQuote x ++ xs.flatMap (fun y => ',' :: jsonQuote y) ++ ']' :: [] with
      | ']' :: r' => some (Json.arr [], r')
      | r' => parseArrElems (2 * ('[' :: (jsonQuote x ++
          xs.flatMap (fun y => ',' :: jsonQuote y) ++ ']' :: [])).length + 1) r' []) =
      parseArrElems (2 * ('[' :: (jsonQuote x ++
          xs.flatMap (fun y => ',' :: jsonQuote y) ++ ']' :: [])).length + 1)
        (jsonQuote x ++ xs.flatMap (fun y => ',' :: jsonQuote y) ++ ']' :: []) [] from by
      rw [hbody]
      rfl]
    rw [parseArrElems_loop xs x _ [] []
      (by
        have h1 := flatMap_quote_length_ge xs
        simp only [List.length_cons, List.length_append]
        omega)]
    simp [skipWs]

lemma approvedOfJson_map_str (l : List String) :
    approvedOfJson (Json.arr (l.map Json.str)) = some l := by
  show (l.map Json.str).mapM _ = some l
  induction l with
  | nil => rfl
  | cons x xs ih =>
    rw [List.map_cons, List.mapM_cons, ih]
    rfl

lemma latin1_jsonEscapeChar {c : Char} (h : c.toNat < 256) :
    ∀ c2 ∈ jsonEscapeChar c, c2.toNat < 256 := by
  intro c2 hc2
  unfold jsonEscapeChar at hc2
  split_ifs at hc2 with h1 h2 h3 h4 h5 h6 h7 h8
  · simp only [List.mem_cons, List.not_mem_nil, or_false] at hc2
    rcases hc2 with rfl | rfl <;> decide
  · simp only [List.mem_cons, List.not_mem_nil, or_false] at hc2
    rcases hc2 with rfl | rfl <;> decide
  · simp only [List.mem_cons, List.not_mem_nil, or_false] at hc2
    rcases hc2 with rfl | rfl <;> decide
  · simp only [List.mem_cons, List.not_mem_nil, or_false] at hc2
    rcases hc2 with rfl | rfl <;> decide
  · simp only [List.mem_cons, List.not_mem_nil, or_false] at hc2
    rcases hc2 with rfl | rfl <;> decide
  · simp only [List.mem_cons, List.not_mem_nil, or_false] at hc2
    rcases hc2 with rfl | rfl <;> decide
  · simp only [List.mem_cons, List.not_mem_nil, or_false] at hc2
    rcases hc2 with rfl | rfl <;> decide
  · simp only [List.mem_cons, List.not_mem_nil, or_false] at hc2
    rcases hc2 with rfl | rfl | rfl | rfl | rfl | rfl
    · decide
    · decide
    · decide
    · decide
    · exact (hexDigit_facts (show c.toNat / 16 < 16 by omega)).2.2.2.2.2.2.2.2.2
    · exact (hexDigit_facts (show c.toNat % 16 < 16 by omega)).2.2.2.2.2.2.2.2.2
  · simp only [List.mem_cons, List.not_mem_nil, or_false] at hc2
    subst hc2
    exact h

lemma mem_joinComma {c : Char} : ∀ {ls : List (List Char)}, c ∈ joinComma ls →
    c = ',' ∨ ∃ x ∈ ls, c ∈ x
  | [], h => by simp [joinComma] at h
  | [x], h => by
    right
    exact ⟨x, by simp, h⟩
  | x :: y :: t, h => by
    rw [show joinComma (x :: y :: t) = x ++ ',' :: joinComma (y :: t) from by
      rw [joinComma.eq_def]] at h
    rcases List.mem_append.mp h with hx | hr
    · exact Or.inr ⟨x, by simp, hx⟩
    · rcases List.mem_cons.mp hr with rfl | hr
      · exact Or.inl rfl
      · rcases mem_joinComma hr with rfl | ⟨z, hz, hcz⟩
        · exact Or.inl rfl
        · exact Or.inr ⟨z, by simp [hz], hcz⟩

lemma latin1_stringifyStringArray (l : List String)
    (hl : ∀ s ∈ l, ∀ c ∈ s.data, c.toNat < 256) :
    ∀ c ∈ (stringifyStringArray l).data, c.toNat < 256 := by
  intro c hc
  have hc2 : c ∈ '[' :: joinComma (l.map jsonQuote) ++ [']'] := hc
  rcases List.mem_cons.mp hc2 with rfl | hc3
  · decide
  rcases List.mem_append.mp hc3 with hj | he
  · rcases mem_joinComma hj with rfl | ⟨x, hx, hcx⟩
    · decide
    · obtain ⟨s, hs, rfl⟩ := List.mem_map.mp hx
      rcases List.mem_cons.mp hcx with rfl | hcx2
      · decide
      rcases List.mem_append.mp hcx2 with hf | hq
      · obtain ⟨ch, hch, hcf⟩ := List.mem_flatMap.mp hf
        exact latin1_jsonEscapeChar (hl s hs ch hch) c hcf
      · rcases List.mem_cons.mp hq with rfl | hq2
        · decide
        · cases hq2
  · rcases List.mem_cons.mp he with rfl | he2
    · decide
    · cases he2

lemma bytesToHex_chars (bs : List Nat) (h : ∀ b ∈ bs, b < 256) :
    ∀ c ∈ (bytesToHex bs).data, c ∈ hexDigitChars := by
  intro c hc
  have hc2 : c ∈ bs.flatMap byteHex := hc
  rw [List.mem_flatMap] at hc2
  obtain ⟨b, hb, hcb⟩ := hc2
  have hblt : b < 256 := h b hb
  simp only [byteHex, List.mem_cons, List.not_mem_nil, or_false] at hcb
  rcases hcb with rfl | rfl
  · exact hexDigit_mem (by omega)
  · exact hexDigit_mem (by omega)

lemma hexDigitChars_not_dot : ∀ c ∈ hexDigitChars, c ≠ '.' := by
  decide

lemma approvedCookieName_facts :
    ∀ c ∈ "__Host-APPROVED_CLIENTS".data, c ≠ ';' ∧ jsWs c = false := by
  decide

/-- Reading back the cookie emitted by `addApprovedClient` (whose value is
`signData(payload).base64(payload)` for the serialised approved list)
recovers exactly that list, provided its entries are Latin-1. -/
lemma getApproved_emitted (l : List String) (secret : String) (sq : Option String)
    (sig b64s : String)
    (hl : ∀ s ∈ l, ∀ c ∈ s.data, c.toNat < 256)
    (hsig : sig = signData (stringifyStringArray l) secret)
    (hb64 : b64s = ⟨b64EncodeBytes ((stringifyStringArray l).data.map Char.toNat)⟩) :
    getApprovedClientsFromCookie
      ⟨sq, some ("__Host-APPROVED_CLIENTS=" ++ sig ++ "." ++ b64s ++
        "; HttpOnly; Secure; Path=/; SameSite=Lax; Max-Age=2592000")⟩ secret
      = .ok (some l) := by
  have hlat : ∀ c ∈ (stringifyStringArray l).data, c.toNat < 256 :=
    latin1_stringifyStringArray l hl
  obtain ⟨hbt, hat⟩ := atob_btoa hlat
  have hsigchars : ∀ c ∈ sig.data, c ∈ hexDigitChars := by
    subst hsig
    exact fun c hc => bytesToHex_chars _ (fun b hb => hmacSha256_byte_lt b hb) c hc
  have hbchars : ∀ c ∈ b64s.data, c ∈ b64Alphabet ∨ c = '=' := by
    subst hb64
    exact fun c hc => mem_b64EncodeBytes _ c hc
  have hvdata : (sig ++ "." ++ b64s).data = sig.data ++ '.' :: b64s.data := by
    rw [String.data_append, String.data_append]
    rw [show ("." : String).data = ['.'] from rfl]
    simp
  have hvfacts : ∀ c ∈ (sig ++ "." ++ b64s).data, c ≠ ';' ∧ jsWs c = false := by
    intro c hc
    rw [hvdata] at hc
    rcases List.mem_append.mp hc with hm | hm
    · exact hexDigitChars_cookie_facts c (hsigchars c hm)
    · rcases List.mem_cons.mp hm with rfl | hm
      · exact ⟨by decide, by decide⟩
      · rcases hbchars c hm with hmem | rfl
        · have hf := b64Alphabet_facts c hmem
          exact ⟨hf.2.2.1, hf.2.2.2.2.1⟩
        · exact ⟨by decide, by decide⟩
  have hheader : ("__Host-APPROVED_CLIENTS=" ++ sig ++ "." ++ b64s ++
      "; HttpOnly; Secure; Path=/; SameSite=Lax; Max-Age=2592000" : String) =
      ⟨"__Host-APPROVED_CLIENTS".data ++ '=' :: (sig ++ "." ++ b64s).data ++
        ';' :: " HttpOnly; Secure; Path=/; SameSite=Lax; Max-Age=2592000".data⟩ := by
    apply String.ext
    show ("__Host-APPROVED_CLIENTS=" ++ sig ++ "." ++ b64s ++
      "; HttpOnly; Secure; Path=/; SameSite=Lax; Max-Age=2592000" : String).data =
      "__Host-APPROVED_CLIENTS".data ++ '=' :: (sig ++ "." ++ b64s).data ++
        ';' :: " HttpOnly; Secure; Path=/; SameSite=Lax; Max-Age=2592000".data
    rw [hvdata]
    simp only [String.data_append]
    simp
  rw [hheader]
  have hne : (⟨"__Host-APPROVED_CLIENTS".data ++ '=' :: (sig ++ "." ++ b64s).data ++
      ';' :: " HttpOnly; Secure; Path=/; SameSite=Lax; Max-Age=2592000".data⟩ : String)
      ≠ "" := by
    intro hemp
    have hd := congrArg String.data hemp
    simp at hd
  have hcv := cookieValue_eq "__Host-APPROVED_CLIENTS" (sig ++ "." ++ b64s)
    " HttpOnly; Secure; Path=/; SameSite=Lax; Max-Age=2592000".data
    approvedCookieName_facts hvfacts
  have hparts : splitCh '.' (sig ++ "." ++ b64s).data = [sig.data, b64s.data] := by
    rw [hvdata]
    rw [splitCh_append_sep '.' b64s.data
      (fun hm => hexDigitChars_not_dot _ (hsigchars _ hm) rfl)]
    rw [splitCh_not_mem '.' (fun hm => by
      rcases hbchars _ hm with hmem | heq
      · exact (b64Alphabet_facts _ hmem).2.2.2.1 rfl
      · exact absurd heq (by decide))]
  unfold getApprovedClientsFromCookie
  dsimp only
  rw [if_neg hne, hcv]
  dsimp only
  rw [hparts]
  rw [if_neg (by simp)]
  simp only [List.getD_cons_succ, List.getD_cons_zero]
  rw [show (⟨b64s.data⟩ : String) = b64s from rfl, hb64, hat]
  dsimp only
  have hver : verifySignature (⟨sig.data⟩ : String) (stringifyStringArray l) secret = true := by
    rw [show (⟨sig.data⟩ : String) = sig from rfl, hsig]
    exact verifySignature_signData _ _
  simp only [hver, Bool.not_true, Bool.false_eq_true, ite_false]
  rw [jsonParse_stringArray l]
  dsimp only
  rw [approvedOfJson_map_str l]

/-- The cookie directive emitted by a successful `addApprovedClient`:
`name=signData(payload).btoa(payload); attributes` for the serialised
updated list, provided the payload is Latin-1 (so `btoa` succeeds). -/
lemma addApprovedClient_emit (req : Request) (clientId secret : String)
    (exOpt : Option (List String))
    (hget : getApprovedClientsFromCookie req secret = .ok exOpt)
    (hlat : ∀ c ∈ (stringifyStringArray (jsSetFrom (exOpt.getD [] ++ [clientId]))).data,
      c.toNat < 256) :
    addApprovedClient req clientId secret = .ok ("__Host-APPROVED_CLIENTS=" ++
      signData (stringifyStringArray (jsSetFrom (exOpt.getD [] ++ [clientId]))) secret ++ "." ++
      (⟨b64EncodeBytes ((stringifyStringArray
        (jsSetFrom (exOpt.getD [] ++ [clientId]))).data.map Char.toNat)⟩ : String) ++
      "; HttpOnly; Secure; Path=/; SameSite=Lax; Max-Age=2592000") := by
  have hbt := (atob_btoa hlat).1
  unfold addApprovedClient
  rw [hget]
  dsimp only
  rw [hbt]

/-- C8 (corrected), counterexample: a clientId with a character above
U+00FF (here the snowman U+2603) makes `btoa` on the JSON payload throw
an uncaught InvalidCharacterError, so `addApprovedClient` does not return
a cookie at all — the claimed property quantifies over every clientId but
only holds for Latin-1 payloads. -/
theorem C8_counterexample :
    addApprovedClient ⟨none, none⟩ "☃" "secret-1" = .error () := rfl

/-- C8 (corrected): for Latin-1 client ids and an input cookie that reads
back as an approved list (or as missing/invalid, treated as the empty
list), approving the same clientId twice — feeding the cookie emitted by
the first call into the second — yields a cookie whose decoded,
signature-verified payload is the de-duplicated insertion-order set and
contains the clientId exactly once. -/
theorem C8_theorem (req : Request) (clientId secret : String) (ex : List String)
    (hget : getApprovedClientsFromCookie req secret = .ok (some ex) ∨
      (getApprovedClientsFromCookie req secret = .ok none ∧ ex = []))
    (hid : ∀ c ∈ clientId.data, c.toNat < 256)
    (hexl : ∀ s ∈ ex, ∀ c ∈ s.data, c.toNat < 256) :
    ∃ c1 c2 l2,
      addApprovedClient req clientId secret = .ok c1 ∧
      addApprovedClient ⟨none, some c1⟩ clientId secret = .ok c2 ∧
      getApprovedClientsFromCookie ⟨none, some c2⟩ secret = .ok (some l2) ∧
      l2 = jsSetFrom (ex ++ [clientId]) ∧
      l2.count clientId = 1 := by
  obtain ⟨exOpt, hgeteq, hgetd⟩ : ∃ exOpt,
      getApprovedClientsFromCookie req secret = .ok exOpt ∧ exOpt.getD [] = ex := by
    rcases hget with h | ⟨h, rfl⟩
    · exact ⟨some ex, h, rfl⟩
    · exact ⟨none, h, rfl⟩
  have hmem1 : clientId ∈ jsSetFrom (ex ++ [clientId]) :=
    (jsSetFrom_mem _ _).mpr (List.mem_append.mpr (Or.inr (List.mem_singleton.mpr rfl)))
  have hl1el : ∀ s ∈ jsSetFrom (ex ++ [clientId]), ∀ c ∈ s.data, c.toNat < 256 := by
    intro s hs
    rcases List.mem_append.mp ((jsSetFrom_mem _ _).mp hs) with hm | hm
    · exact hexl s hm
    · rw [List.mem_singleton] at hm
      subst hm
      exact hid
  have hlat1 : ∀ c ∈ (stringifyStringArray (jsSetFrom (ex ++ [clientId]))).data,
      c.toNat < 256 := latin1_stringifyStringArray _ hl1el
  have h1 := addApprovedClient_emit req clientId secret exOpt hgeteq
    (by rw [hgetd]; exact hlat1)
  rw [hgetd] at h1
  have hr1 := getApproved_emitted (jsSetFrom (ex ++ [clientId])) secret none _ _ hl1el rfl rfl
  have hstep : jsSetFrom (jsSetFrom (ex ++ [clientId]) ++ [clientId]) =
      jsSetFrom (ex ++ [clientId]) :=
    jsSetFrom_idem_append _ _ hmem1 (jsSetFrom_nodup _)
  have h2 := addApprovedClient_emit ⟨none, some ("__Host-APPROVED_CLIENTS=" ++
      signData (stringifyStringArray (jsSetFrom (ex ++ [clientId]))) secret ++ "." ++
      (⟨b64EncodeBytes ((stringifyStringArray
        (jsSetFrom (ex ++ [clientId]))).data.map Char.toNat)⟩ : String) ++
      "; HttpOnly; Secure; Path=/; SameSite=Lax; Max-Age=2592000")⟩
    clientId secret (some (jsSetFrom (ex ++ [clientId]))) hr1
    (by simp only [Option.getD_some]; rw [hstep]; exact hlat1)
  simp only [Option.getD_some] at h2
  rw [hstep] at h2
  have hcount : (jsSetFrom (ex ++ [clientId])).count clientId = 1 :=
    List.count_eq_one_of_mem (jsSetFrom_nodup _) hmem1
  exact ⟨_, _, _, h1, h2, hr1, rfl, hcount⟩

theorem C8_witness :
    ∃ c1 c2 l2,
      addApprovedClient ⟨none, none⟩ "client-abc" "secret-1" = .ok c1 ∧
      addApprovedClient ⟨none, some c1⟩ "client-abc" "secret-1" = .ok c2 ∧
      getApprovedClientsFromCookie ⟨none, some c2⟩ "secret-1" = .ok (some l2) ∧
      l2 = jsSetFrom ([] ++ ["client-abc"]) ∧
      l2.count "client-abc" = 1 :=
  C8_theorem ⟨none, none⟩ "client-abc" "secret-1" []
    (Or.inr ⟨rfl, rfl⟩) (by decide) (by simp)
